import Mathlib

/-!
Shallow embedding of the `exl` spreadsheet ↔ record mapping engine
(src/write.go and src/unnamed/part_000, package `exl`), together with
theorems settling the frozen claims about it.

Modelling conventions, used throughout:

* Go `float64` values and Excel date serial numbers are modelled by `Dec`,
  a scaled decimal `m / 10^e`.  Every float64 prints as such a finite
  decimal and Go guarantees `strconv.ParseFloat (strconv.FormatFloat x) = x`,
  which the cell model below reflects by storing the number of a numeric
  cell exactly.
* `time.Time` values are identified with their 1900-epoch Excel serial
  number; a 1904-epoch document shifts by 1462 days
  (`xlsx.TimeFromExcelTime`).
* The external `tealeg/xlsx` document library (out of scope per the spec,
  §1/§6) is modelled at its interface: a sheet is a list of rows of cells,
  `Cell.Value` is the string view of a cell, `Cell.SetValue`/`SetBool`/
  `SetString`/`SetDateWithOptions` build cells as in the library.
* Go runtime panics (a `reflect.Set` with a mismatched type) are modelled
  as the `Except.error ()` outcome of `processCell` and the
  `ReadErr.reflectPanic` outcome of a whole read.
-/

deriving instance DecidableEq for Except

namespace Exl

/-- A scaled decimal `m / 10^e`: the model of Go `float64` values and of
Excel date serial numbers (every float64 has such a finite decimal form). -/
structure Dec where
  m : Int
  e : Nat
deriving DecidableEq, Repr

/-- Decimal rendering of `Dec`, digit characters with an optional leading
sign and a decimal point `e` digits from the right.  Model of
`strconv.FormatFloat`. -/
def decChars (d : Dec) : List Char :=
  let digits := Nat.toDigits 10 d.m.natAbs
  let padded := List.replicate (d.e + 1 - digits.length) '0' ++ digits
  let whole := padded.take (padded.length - d.e)
  let frac := padded.drop (padded.length - d.e)
  (if d.m < 0 then ['-'] else []) ++ whole ++ (if d.e = 0 then [] else '.' :: frac)

def Dec.render (d : Dec) : String := ⟨decChars d⟩

/-- In-memory cell of the external document library, at the interface level. -/
inductive RawCell
  | empty
  | str (s : String)
  | num (d : Dec)
  | boolv (b : Bool)
  | date (serial : Dec) (fmt : String)
deriving DecidableEq, Repr

/-- `Cell.Value`: the raw string view of a cell.  Numeric and date cells
render their stored number; bool cells store `"1"`/`"0"` (tealeg
`Cell.SetBool`). -/
def RawCell.value : RawCell → String
  | .empty => ""
  | .str s => s
  | .num d => d.render
  | .boolv b => if b then "1" else "0"
  | .date d _ => d.render

def digitVal? (c : Char) : Option Nat :=
  if '0' ≤ c ∧ c ≤ '9' then some (c.toNat - '0'.toNat) else none

def digitsToNatAux : List Char → Nat → Option Nat
  | [], acc => some acc
  | c :: cs, acc =>
    match digitVal? c with
    | some v => digitsToNatAux cs (acc * 10 + v)
    | none => none

/-- Nonempty all-digit character list to a natural number. -/
def digitsToNat? : List Char → Option Nat
  | [] => none
  | cs => digitsToNatAux cs 0

/-- Possibly-empty all-digit character list to a natural number. -/
def digitsLoose? (cs : List Char) : Option Nat := digitsToNatAux cs 0

/-- `strconv.ParseInt(s, 10, 64)` on plain decimal text (overflow is out of
the model: `Int` stands for the machine integers). -/
def parseIntChars : List Char → Option Int
  | '-' :: cs => (digitsToNat? cs).map fun n => -(n : Int)
  | '+' :: cs => (digitsToNat? cs).map fun n => (n : Int)
  | cs => (digitsToNat? cs).map fun n => (n : Int)

def parseIntStr (s : String) : Option Int := parseIntChars s.data

/-- `strconv.ParseUint`: digits only, no sign. -/
def parseUintStr (s : String) : Option Nat := digitsToNat? s.data

def parseMantissa (cs : List Char) : Option Dec :=
  match cs.splitOn '.' with
  | [w] => (digitsToNat? w).map fun n => ⟨(n : Int), 0⟩
  | [w, f] =>
    if w.isEmpty ∧ f.isEmpty then none
    else
      (digitsLoose? w).bind fun wn =>
        (digitsLoose? f).map fun fn => ⟨(wn * 10 ^ f.length + fn : Nat), f.length⟩
  | _ => none

/-- `strconv.ParseFloat` on plain decimal text (exponent and hex float
notations are outside the modelled input language). -/
def parseFloatChars : List Char → Option Dec
  | '-' :: cs => (parseMantissa cs).map fun d => ⟨-d.m, d.e⟩
  | '+' :: cs => parseMantissa cs
  | cs => parseMantissa cs

def parseFloatStr (s : String) : Option Dec := parseFloatChars s.data

/-- `strconv.ParseBool`: the canonical true/false tokens. -/
def parseBoolStr (s : String) : Option Bool :=
  if s = "1" ∨ s = "t" ∨ s = "T" ∨ s = "TRUE" ∨ s = "true" ∨ s = "True" then some true
  else if s = "0" ∨ s = "f" ∨ s = "F" ∨ s = "FALSE" ∨ s = "false" ∨ s = "False" then some false
  else none

/-- `strconv.ParseFloat(cell.Value, …)`.  A numeric or date cell reparses to
its exact stored number (Go's FormatFloat/ParseFloat round-trip); any other
cell parses its text. -/
def RawCell.parseFloat? : RawCell → Option Dec
  | .num d => some d
  | .date d _ => some d
  | c => parseFloatStr c.value

/-- `strconv.ParseInt(cell.Value, …)`: a numeric or date cell parses iff it
stores an integer. -/
def RawCell.parseInt? : RawCell → Option Int
  | .num d => if d.e = 0 then some d.m else none
  | .date d _ => if d.e = 0 then some d.m else none
  | c => parseIntStr c.value

/-- `strconv.ParseUint(cell.Value, …)`. -/
def RawCell.parseUint? : RawCell → Option Nat
  | .num d => if d.e = 0 ∧ 0 ≤ d.m then some d.m.toNat else none
  | .date d _ => if d.e = 0 ∧ 0 ≤ d.m then some d.m.toNat else none
  | c => parseUintStr c.value

/-- The supported primitive reflect kinds (integer and float widths are
collapsed; width only affects range checks, which no claim touches). -/
inductive PKind
  | kBool | kInt | kUInt | kFloat | kString
deriving DecidableEq, Repr

/-- A primitive Go value.  `pT` is a `time.Time` (identified with its
1900-epoch serial); `pOther` is a value of an unsupported kind, carrying
only its `%v` rendering. -/
inductive Prim
  | pB (b : Bool)
  | pI (n : Int)
  | pU (n : Nat)
  | pF (d : Dec)
  | pS (s : String)
  | pT (serial : Dec)
  | pOther (rendering : String)
deriving DecidableEq, Repr

/-- A Go field value: either a plain value or a pointer (possibly nil). -/
inductive Value
  | base (p : Prim)
  | ptrV (o : Option Prim)
deriving DecidableEq, Repr

/-- The static type of a record field, in the closed universe the claims
range over: supported primitive kinds, pointers to them, `time.Time`,
`*time.Time`, and an unsupported (struct-kind, capability-free) type. -/
inductive FieldType
  | fBase (k : PKind)
  | fPtr (k : PKind)
  | fTime
  | fPtrTime
  | fUnsup
  | fPtrUnsup
deriving DecidableEq, Repr

def zeroPrim : PKind → Prim
  | .kBool => .pB false
  | .kInt => .pI 0
  | .kUInt => .pU 0
  | .kFloat => .pF ⟨0, 0⟩
  | .kString => .pS ""

/-- `reflect.New(typ).Elem()`: the zero value of a field type. -/
def FieldType.zeroValue : FieldType → Value
  | .fBase k => .base (zeroPrim k)
  | .fPtr _ => .ptrV none
  | .fTime => .base (.pT ⟨0, 0⟩)
  | .fPtrTime => .ptrV none
  | .fUnsup => .base (.pOther "")
  | .fPtrUnsup => .ptrV none

/-- `destField.Kind() == reflect.Ptr`. -/
def isPtrField : FieldType → Bool
  | .fPtr _ => true
  | .fPtrTime => true
  | .fPtrUnsup => true
  | _ => false

/-- One struct field.  `tag` is the result of `Tag.Lookup(tagName)` for the
tag name shared by the read and the write configuration (the claims fix the
two to match); `exported` models `CanInterface`/`CanSet`/`IsExported`. -/
structure Field where
  name : String
  tag : Option String
  exported : Bool
  type : FieldType
deriving DecidableEq, Repr

structure StructType where
  fields : List Field
deriving DecidableEq, Repr

abbrev Record := List Value

/-- A `reflect.Kind` as far as the registry discriminates: a supported
primitive kind, the pointer kind, or a struct-like kind with no built-in. -/
inductive GoKind
  | prim (k : PKind)
  | ptrKind
  | structKind
deriving DecidableEq, Repr

/-- What `GetUnmarshalFunc` observes about a destination field
(src/unnamed/part_000:177-220): interface capabilities of the value returned
by `getFieldInterface`, whether the static type is exactly `time.Time`, and
the reflect kind (plus element kind for pointers). -/
structure TypeDesc where
  canInterface : Bool
  capExcelUnmarshaler : Bool
  capTextUnmarshaler : Bool
  isTimeTime : Bool
  kind : GoKind
  elemKind : GoKind
deriving DecidableEq, Repr

/-- The conversion routine resolved for a field, by name. -/
inductive RoutineName
  | excelUnmarshaler
  | timeRoutine
  | textUnmarshaler
  | builtin (k : PKind)
  | pointerWrapped (k : PKind)
deriving DecidableEq, Repr

/-- Modelled from the spec: the registry `DefaultUnmarshalFuncs` (its
defining file is not under src/) maps exactly the primitive kinds —
boolean, signed/unsigned integers, floats, string — to built-in routines
(§4.2 item 4). -/
def defaultUnmarshalFuncs : GoKind → Option RoutineName
  | .prim k => some (.builtin k)
  | _ => none

/-- The kind-dispatch tail of `GetUnmarshalFunc`
(src/unnamed/part_000:201-219): for a pointer, dispatch on the element kind
and wrap the found routine (`unmarshalPointer`). -/
def getUnmarshalFuncKind (d : TypeDesc) : Option RoutineName :=
  let isPointer : Bool := d.kind == .ptrKind
  let kind := if isPointer then d.elemKind else d.kind
  match defaultUnmarshalFuncs kind with
  | some (.builtin k) => if isPointer then some (.pointerWrapped k) else some (.builtin k)
  | some r => some r
  | none => none

/-- `GetUnmarshalFunc` (src/unnamed/part_000:177-220): custom
`ExcelUnmarshaler` capability first, then the `time.Time` special type, then
the `encoding.TextUnmarshaler` capability, then kind dispatch with pointer
wrapping; `none` is "no unmarshaler". -/
def GetUnmarshalFunc (d : TypeDesc) : Option RoutineName :=
  if d.canInterface then
    if d.capExcelUnmarshaler then some .excelUnmarshaler
    else if d.isTimeTime then some .timeRoutine
    else if d.capTextUnmarshaler then some .textUnmarshaler
    else getUnmarshalFuncKind d
  else getUnmarshalFuncKind d

/-- The reflection descriptor of each field type of the modelled universe.
The capability flags are modelled from the spec (`getFieldInterface` is not
under src/): a field, being addressable, exposes a capability when the
method set of its type or of a pointer to it contains the method.
`*time.Time` has `UnmarshalText` (pointer receiver on `time.Time`), so both
time types carry the text capability; `time.Time` is caught by the
`reflect.TypeOf(time.Time{})` test first. -/
def FieldType.desc (exported : Bool) : FieldType → TypeDesc
  | .fBase k => ⟨exported, false, false, false, .prim k, .structKind⟩
  | .fPtr k => ⟨exported, false, false, false, .ptrKind, .prim k⟩
  | .fTime => ⟨exported, false, true, true, .structKind, .structKind⟩
  | .fPtrTime => ⟨exported, false, true, false, .ptrKind, .structKind⟩
  | .fUnsup => ⟨exported, false, false, false, .structKind, .structKind⟩
  | .fPtrUnsup => ⟨exported, false, false, false, .ptrKind, .structKind⟩

/-- Routine resolution for a field of the modelled universe. -/
def FieldType.unmarshalFunc (t : FieldType) (exported : Bool) : Option RoutineName :=
  GetUnmarshalFunc (t.desc exported)

/-- Underlying conversion failure. -/
inductive UErr
  | parse (k : PKind) (raw : String)
  | timeParse (raw : String)
  | external (what : String)
deriving DecidableEq, Repr

structure FieldError where
  rowIndex : Nat
  columnIndex : Nat
  columnHeader : String
  err : UErr
deriving DecidableEq, Repr

structure ContentError where
  fieldErrors : List FieldError
  limitReached : Bool
deriving DecidableEq, Repr

/-- Everything `ReadBinary` can return instead of a record list.
`reflectPanic` models a Go runtime panic escaping the call. -/
inductive ReadErr
  | sheetIndexOutOfRange
  | headerRowIndexOutOfRange
  | dataStartRowIndexOutOfRange
  | noDestinationField (header : String) (index : Nat)
  | noUnmarshaler (header : String) (index : Nat)
  | fieldErr (e : FieldError)
  | contentErr (e : ContentError)
  | reflectPanic (what : String)
deriving DecidableEq, Repr

inductive UnmarshalErrorHandling
  | ignore
  | abort
  | collect
deriving DecidableEq, Repr

structure DropEntry where
  key : String
  value : String
deriving DecidableEq, Repr

/-- `ReadConfig` (src/unnamed/part_000:29-83).  The tag name is implicit in
`Field.tag`; `maxUnmarshalErrors` is a uint64 whose overflow can never
matter at list lengths. -/
structure ReadConfig where
  sheetIndex : Int
  headerRowIndex : Int
  dataStartRowIndex : Int
  trimSpace : Bool
  fallbackDateFormats : List String
  skipUnknownColumns : Bool
  skipUnknownTypes : Bool
  unmarshalErrorHandling : UnmarshalErrorHandling
  maxUnmarshalErrors : Nat
  dropListMap : Option (List (String × List DropEntry))
  pointerCanNil : Bool
deriving Repr

/-- `defaultReadConfig` (src/unnamed/part_000:153-161). -/
def defaultReadConfig : ReadConfig :=
  { sheetIndex := 0
    headerRowIndex := 0
    dataStartRowIndex := 1
    trimSpace := false
    fallbackDateFormats := []
    skipUnknownColumns := true
    skipUnknownTypes := false
    unmarshalErrorHandling := .abort
    maxUnmarshalErrors := 10
    dropListMap := none
    pointerCanNil := false }

/-- `ExcelUnmarshalParameters` (shared conversion parameters; the defining
file is not under src/, fields per the spec §3 "Conversion Routine"). -/
structure ExcelUnmarshalParameters where
  trimSpace : Bool
  date1904 : Bool
  fallbackDateFormats : List String
deriving DecidableEq, Repr

structure DataValidation where
  rowIndex : Nat
  colIndex : Nat
  allowBlank : Bool
  choices : List String
  errMsg : String
deriving DecidableEq, Repr

structure Sheet where
  name : String
  rows : List (List RawCell)
  validations : List DataValidation
deriving DecidableEq, Repr

structure XFile where
  sheets : List Sheet
  date1904 : Bool
deriving DecidableEq, Repr

def Sheet.maxRow (s : Sheet) : Nat := s.rows.length

def Sheet.maxCol (s : Sheet) : Nat := s.rows.foldr (fun r acc => max r.length acc) 0

/-- `Row.GetCell(i)`: out-of-range access yields a fresh empty cell. -/
def getCellAt (row : List RawCell) (i : Nat) : RawCell := row.getD i .empty

def Sheet.rowAt (s : Sheet) (i : Nat) : List RawCell := s.rows.getD i []

/-- `readStrings` (src/unnamed/part_000:169-175). -/
def readStrings (maxCol : Nat) (row : List RawCell) : List String :=
  (List.range maxCol).map fun i => (getCellAt row i).value

/-- `xlsx.TimeFromExcelTime` at the interface level: time values are
identified with their 1900-epoch serial; a 1904-epoch document shifts by
1462 days. -/
def timeFromExcelTime (serial : Dec) (date1904 : Bool) : Dec :=
  if date1904 then ⟨serial.m + 1462 * (10 : Int) ^ serial.e, serial.e⟩ else serial

/-- Modelled from the spec: the textual rendering of a date under a fallback
pattern, represented abstractly as the pattern tag followed by the serial
(only its success/failure structure matters to any claim). -/
def renderDatePattern (fmt : String) (serial : Dec) : String :=
  fmt ++ "#" ++ serial.render

/-- Modelled from the spec: `time.Parse(fmt, s)`, the inverse of
`renderDatePattern`. -/
def parseDatePattern (fmt : String) (s : String) : Option Dec :=
  let pre := fmt ++ "#"
  if pre.isPrefixOf s then parseFloatStr (s.drop pre.length) else none

def tryFallbackFormats : List String → String → Except UErr Dec
  | [], s => .error (.timeParse s)
  | f :: fs, s =>
    match parseDatePattern f s with
    | some d => .ok d
    | none => tryFallbackFormats fs s

/-- Modelled from the spec: `UnmarshalTime` (its file is not under src/) —
the container's date parser first (a natively date-formatted cell, read
through the document epoch), then each configured fallback pattern in
declared order, failing only when all are exhausted (§4.2 item 2). -/
def unmarshalTimeCell (cell : RawCell) (params : ExcelUnmarshalParameters) : Except UErr Dec :=
  match cell with
  | .date serial _ => .ok (timeFromExcelTime serial params.date1904)
  | c => tryFallbackFormats params.fallbackDateFormats c.value

/-- Modelled from the spec: the built-in routine for a primitive kind —
standard decimal parsing of the cell text, malformed text is a conversion
failure; the string routine copies the text, trimming when configured
(§4.2 item 4). -/
def cellParsePrim (k : PKind) (cell : RawCell) (params : ExcelUnmarshalParameters) :
    Except UErr Prim :=
  match k with
  | .kBool =>
    match parseBoolStr cell.value with
    | some b => .ok (.pB b)
    | none => .error (.parse .kBool cell.value)
  | .kInt =>
    match cell.parseInt? with
    | some n => .ok (.pI n)
    | none => .error (.parse .kInt cell.value)
  | .kUInt =>
    match cell.parseUint? with
    | some n => .ok (.pU n)
    | none => .error (.parse .kUInt cell.value)
  | .kFloat =>
    match cell.parseFloat? with
    | some d => .ok (.pF d)
    | none => .error (.parse .kFloat cell.value)
  | .kString => .ok (.pS (if params.trimSpace then cell.value.trim else cell.value))

/-- What one conversion step does to the destination field: raise a Go
runtime panic, overwrite the field with a value, or leave the field as it
is — in the last two cases together with the conversion failure, if any.
Factoring the step this way separates the part of the loop body that does
not depend on the current field value. -/
inductive CellAction
  | panic
  | setTo (v : Value) (e : Option UErr)
  | keep (e : Option UErr)
deriving DecidableEq, Repr

/-- Running a resolved routine against a destination field.  Go mutates the
destination, so the action carries the mutation even on failure:
`unmarshalPointer` (src/unnamed/part_000:222-231) attaches the freshly
allocated target before delegating, leaving a non-nil pointer to the zero
value behind a failed conversion; the value-typed routines leave the field
untouched on failure.  The capability routines
(`UnmarshalExcelUnmarshaler`, `UnmarshalTextUnmarshaler`) run user code; in
the modelled universe the only types carrying a capability are the time
types, whose columns `ReadBinary` intercepts before the generic routine can
run, so their semantics are represented as an opaque failure. -/
def applyRoutineAct (r : RoutineName) (cell : RawCell)
    (params : ExcelUnmarshalParameters) : CellAction :=
  match r with
  | .builtin k =>
    match cellParsePrim k cell params with
    | .ok p => .setTo (.base p) none
    | .error e => .keep (some e)
  | .pointerWrapped k =>
    match cellParsePrim k cell params with
    | .ok p => .setTo (.ptrV (some p)) none
    | .error e => .setTo (.ptrV (some (zeroPrim k))) (some e)
  | .timeRoutine =>
    match unmarshalTimeCell cell params with
    | .ok d => .setTo (.base (.pT d)) none
    | .error e => .keep (some e)
  | .textUnmarshaler => .keep (some (.external "TextUnmarshaler"))
  | .excelUnmarshaler => .keep (some (.external "ExcelUnmarshaler"))

/-- A resolved routine as the destination-field transformer it is in Go. -/
def applyRoutine (r : RoutineName) (cell : RawCell) (params : ExcelUnmarshalParameters)
    (cur : Value) : Value × Option UErr :=
  match applyRoutineAct r cell params with
  | .panic => (cur, none)
  | .setTo v e => (v, e)
  | .keep e => (cur, e)

/-- `rc.DropListMap[k]` with the nil map looking nothing up. -/
def dropListLookup (m : Option (List (String × List DropEntry))) (k : String) :
    Option (List DropEntry) :=
  match m with
  | none => none
  | some l => (l.find? fun p => p.1 == k).map (·.2)

/-- Binding-plan entry (`fieldInfo`, src/unnamed/part_000:251-255); a `none`
routine marks a skipped column. -/
structure FieldInfo where
  reflectFieldIndex : Nat
  header : String
  unmarshalFunc : Option RoutineName
deriving DecidableEq, Repr

def noField : Field := ⟨"", none, false, .fUnsup⟩

/-- The action of one bound cell of one data row: the body of
`ReadBinary`'s inner loop (src/unnamed/part_000:363-417), up to — not
including — the error-policy dispatch.  `CellAction.panic` is the Go
runtime panic raised by the `*bool` localized-boolean branch, which
executes `destField.Set(reflect.ValueOf(&cell.Value))`: a `*string` is
never assignable to a `*bool` field. -/
def cellAction (rc : ReadConfig) (params : ExcelUnmarshalParameters) (fld : Field)
    (header : String) (routine : RoutineName) (cell : RawCell) : CellAction :=
  if rc.pointerCanNil ∧ isPtrField fld.type ∧ cell.value = "" then
    .keep none
  else if fld.type = .fPtrTime ∧ fld.exported then
    let ft := cell.parseFloat?.getD ⟨0, 0⟩
    .setTo (.ptrV (some (.pT (timeFromExcelTime ft params.date1904)))) none
  else if (fld.type = .fBase .kBool ∨ fld.type = .fPtr .kBool) ∧ fld.exported
      ∧ cell.value = "是" then
    if isPtrField fld.type then .panic
    else .setTo (.base (.pB true)) none
  else if (fld.type = .fBase .kBool ∨ fld.type = .fPtr .kBool) ∧ fld.exported
      ∧ cell.value = "否" then
    if isPtrField fld.type then .panic
    else .setTo (.base (.pB false)) none
  else if (fld.type = .fBase .kString ∨ fld.type = .fPtr .kString) ∧ fld.exported
      ∧ (dropListLookup rc.dropListMap header).isSome then
    let entries := (dropListLookup rc.dropListMap header).getD []
    let key := entries.foldl (fun acc ent => if ent.value == cell.value then ent.key else acc) ""
    if isPtrField fld.type then .setTo (.ptrV (some (.pS key))) none
    else .setTo (.base (.pS key)) none
  else
    applyRoutineAct routine cell params

/-- One bound cell of one data row, as the transformer of the current field
value; `Except.error ()` is a Go runtime panic escaping the loop. -/
def processCell (rc : ReadConfig) (params : ExcelUnmarshalParameters) (fld : Field)
    (header : String) (routine : RoutineName) (cell : RawCell) (cur : Value) :
    Except Unit (Value × Option UErr) :=
  match cellAction rc params fld header routine cell with
  | .panic => .error ()
  | .setTo v e => .ok (v, e)
  | .keep e => .ok (cur, e)

/-- Row-loop step outcome: either carry on with the partially-filled record
and the errors collected so far, or terminate the whole read. -/
inductive RowStep
  | cont (val : Record) (errs : List FieldError)
  | halt (e : ReadErr)
deriving DecidableEq, Repr

/-- The inner column loop of `ReadBinary` (src/unnamed/part_000:356-437)
over the enumerated binding plan, including the error-policy dispatch
(ignore / abort / collect with cap). -/
def processColumns (typ : StructType) (rc : ReadConfig) (params : ExcelUnmarshalParameters)
    (row : List RawCell) (rowIndex : Nat) :
    List (Nat × FieldInfo) → Record → List FieldError → RowStep
  | [], val, errs => .cont val errs
  | (colIndex, fi) :: rest, val, errs =>
    match fi.unmarshalFunc with
    | none => processColumns typ rc params row rowIndex rest val errs
    | some routine =>
      let cell := getCellAt row colIndex
      let fld := typ.fields.getD fi.reflectFieldIndex noField
      let cur := val.getD fi.reflectFieldIndex (.base (.pOther ""))
      match processCell rc params fld fi.header routine cell cur with
      | .error _ => .halt (.reflectPanic "reflect.Set: *string into *bool")
      | .ok (v', perr) =>
        let val' := val.set fi.reflectFieldIndex v'
        match perr with
        | none => processColumns typ rc params row rowIndex rest val' errs
        | some uerr =>
          if rc.unmarshalErrorHandling = .ignore then
            processColumns typ rc params row rowIndex rest val' errs
          else
            let fer : FieldError := ⟨rowIndex, colIndex, fi.header, uerr⟩
            if rc.unmarshalErrorHandling = .abort then
              .halt (.fieldErr fer)
            else
              let errs' := errs ++ [fer]
              if 0 < rc.maxUnmarshalErrors ∧ rc.maxUnmarshalErrors ≤ errs'.length then
                .halt (.contentErr ⟨errs', true⟩)
              else
                processColumns typ rc params row rowIndex rest val' errs'

/-- Whole-pass outcome of the row loop. -/
inductive ReadOut
  | done (ts : List Record) (errs : List FieldError)
  | halt (e : ReadErr)
deriving DecidableEq, Repr

/-- The outer row loop of `ReadBinary` (src/unnamed/part_000:351-455): every
sheet row in order, skipping those before `DataStartRowIndex`; after a row,
the record is kept only if every filter accepts it. -/
def processRowsList (typ : StructType) (rc : ReadConfig) (params : ExcelUnmarshalParameters)
    (cols : List FieldInfo) (sheet : Sheet) (filters : List (Record → Bool)) :
    List Nat → List Record → List FieldError → ReadOut
  | [], ts, errs => .done ts errs
  | rowIndex :: rest, ts, errs =>
    if rc.dataStartRowIndex.toNat ≤ rowIndex then
      let val0 := typ.fields.map fun f => f.type.zeroValue
      match processColumns typ rc params (sheet.rowAt rowIndex) rowIndex cols.enum val0 errs with
      | .halt e => .halt e
      | .cont val errs' =>
        let add := filters.all fun fF => fF val
        processRowsList typ rc params cols sheet filters rest
          (if add then ts ++ [val] else ts) errs'
    else
      processRowsList typ rc params cols sheet filters rest ts errs

/-- `tagToFieldMap` construction (src/unnamed/part_000:289-296) as the
insertion-ordered pair list; a later field with the same tag overwrites an
earlier one, as in a Go map. -/
def tagToFieldPairs (fields : List Field) : List (String × Nat) :=
  fields.enum.filterMap fun p => p.2.tag.map fun t => (t, p.1)

/-- Go map lookup over the insertion list: the latest insert wins. -/
def tagLookup (pairs : List (String × Nat)) (k : String) : Option Nat :=
  pairs.foldl (fun acc p => if p.1 == k then some p.2 else acc) none

/-- Column binding for one header (src/unnamed/part_000:301-339): resolve
the destination field by exact header text, then a conversion routine for
it; each absence either skips the column or fails the read, by policy.  A
skipped unknown column keeps the zero field index, as in the source. -/
def bindOne (typ : StructType) (rc : ReadConfig) (columnIndex : Nat) (header : String) :
    Except ReadErr FieldInfo :=
  match tagLookup (tagToFieldPairs typ.fields) header with
  | none =>
    if rc.skipUnknownColumns then .ok ⟨0, header, none⟩
    else .error (.noDestinationField header columnIndex)
  | some i =>
    let fld := typ.fields.getD i noField
    match fld.type.unmarshalFunc fld.exported with
    | none =>
      if rc.skipUnknownTypes then .ok ⟨i, header, none⟩
      else .error (.noUnmarshaler header columnIndex)
    | some r => .ok ⟨i, header, some r⟩

def bindColumnsAux (typ : StructType) (rc : ReadConfig) :
    Nat → List String → Except ReadErr (List FieldInfo)
  | _, [] => .ok []
  | i, h :: hs => do
    let fi ← bindOne typ rc i h
    let rest ← bindColumnsAux typ rc (i + 1) hs
    pure (fi :: rest)

/-- The column-binding phase of `ReadBinary` (src/unnamed/part_000:298-340):
headers processed by position. -/
def bindColumns (typ : StructType) (rc : ReadConfig) (headers : List String) :
    Except ReadErr (List FieldInfo) :=
  bindColumnsAux typ rc 0 headers

def noSheet : Sheet := ⟨"", [], []⟩

/-- `ReadBinary` (src/unnamed/part_000:258-463).  The caller's configurator
has already been applied to `rc` (the source builds `defaultReadConfig()`
and lets `T.ReadConfigure` mutate it); the document has already been opened
into `f`. -/
def readBinary (typ : StructType) (rc : ReadConfig) (f : XFile)
    (filters : List (Record → Bool)) : Except ReadErr (List Record) :=
  if rc.sheetIndex < 0 ∨ (f.sheets.length : Int) - 1 < rc.sheetIndex then
    .error .sheetIndexOutOfRange
  else
    let sheet := f.sheets.getD rc.sheetIndex.toNat noSheet
    if rc.headerRowIndex < 0 ∨ (sheet.maxRow : Int) - 1 < rc.headerRowIndex then
      .error .headerRowIndexOutOfRange
    else if rc.dataStartRowIndex < 0 ∨ (sheet.maxRow : Int) - 1 < rc.dataStartRowIndex then
      .error .dataStartRowIndexOutOfRange
    else
      let headerRow := sheet.rowAt rc.headerRowIndex.toNat
      let headers := readStrings sheet.maxCol headerRow
      match bindColumns typ rc headers with
      | .error e => .error e
      | .ok cols =>
        let params : ExcelUnmarshalParameters :=
          ⟨rc.trimSpace, f.date1904, rc.fallbackDateFormats⟩
        match processRowsList typ rc params cols sheet filters
            (List.range sheet.maxRow) [] [] with
        | .halt e => .error e
        | .done ts errs =>
          if 0 < errs.length then .error (.contentErr ⟨errs, false⟩)
          else .ok ts

/-- A value appended to the `data` slice of `write0` (a Go `any`). -/
inductive EncVal
  | vBool (b : Bool)
  | vInt (n : Int)
  | vUInt (n : Nat)
  | vFloat (d : Dec)
  | vStr (s : String)
  | vTime (serial : Dec)
  | vNilPtr
  | vOther (rendering : String)
deriving DecidableEq, Repr

/-- `WriteConfig` (src/write.go:25-40); the tag name is implicit in
`Field.tag`. -/
structure WriteConfig where
  sheetName : String
  skipNoTag : Bool
  skipNilPointer : Bool
  dropListMap : Option (List (String × List DropEntry))
  chineseBool : Bool
  writeTimeFmt : String
deriving Repr

/-- The external constant `xlsx.DefaultDateFormat`; its exact text never
influences the engine. -/
def xlsxDefaultDateFormat : String := "m/d/yy h:mm"

/-- `defaultWriteConfig` (src/write.go:43-45). -/
def defaultWriteConfig : WriteConfig :=
  { sheetName := "Sheet1"
    skipNoTag := false
    skipNilPointer := false
    dropListMap := none
    chineseBool := false
    writeTimeFmt := xlsxDefaultDateFormat }

/-- tealeg `Cell.SetValue` at the interface level: bools via `SetBool`,
numbers stored exactly, strings verbatim; a typed nil pointer falls into the
default `fmt.Sprintf("%v", …)` case and is stored as the text `"<nil>"`.
(`write` intercepts `time.Time` before `SetValue`; the `vTime` case here is
`SetValue`'s own `SetDateTime` fallback, with the library default format.) -/
def setValueCell : EncVal → RawCell
  | .vBool b => .boolv b
  | .vInt n => .num ⟨n, 0⟩
  | .vUInt n => .num ⟨(n : Int), 0⟩
  | .vFloat d => .num d
  | .vStr s => .str s
  | .vTime serial => .date serial xlsxDefaultDateFormat
  | .vNilPtr => .str "<nil>"
  | .vOther r => .str r

/-- The per-cell action of `write` (src/write.go:53-62): a `time.Time`
value goes through `SetDateWithOptions` with the configured format,
everything else through `SetValue`. -/
def writeCell (wc : WriteConfig) : EncVal → RawCell
  | .vTime serial => .date serial wc.writeTimeFmt
  | c => setValueCell c

/-- `write` (src/write.go:47-63): append one row. -/
def writeRow (sheet : Sheet) (data : List EncVal) (wc : WriteConfig) : Sheet :=
  { sheet with rows := sheet.rows ++ [data.map (writeCell wc)] }

/-- The header row of `write0` (src/write.go:104-118): every exported
field, labelled by its tag when present, else by its name, skipped when
untagged under `SkipNoTag`. -/
def headerData (typ : StructType) (wc : WriteConfig) : List EncVal :=
  typ.fields.filterMap fun fe =>
    if fe.exported = false then none
    else
      match fe.tag with
      | some tt => some (.vStr tt)
      | none => if wc.skipNoTag then none else some (.vStr fe.name)

def primEnc : Prim → EncVal
  | .pB b => .vBool b
  | .pI n => .vInt n
  | .pU n => .vUInt n
  | .pF d => .vFloat d
  | .pS s => .vStr s
  | .pT serial => .vTime serial
  | .pOther r => .vOther r

/-- The "special data" projection of one (dereferenced) primitive value
(src/write.go:188-217): localized booleans, drop-list display substitution
with fall-back to the key itself, everything else verbatim. -/
def encodePrim (wc : WriteConfig) (tag : String) (p : Prim) : EncVal :=
  match p with
  | .pB b =>
    if wc.chineseBool then (if b then .vStr "是" else .vStr "否") else .vBool b
  | .pS s =>
    match dropListLookup wc.dropListMap tag with
    | some entries =>
      .vStr (entries.foldl (fun acc ent => if ent.key == s then ent.value else acc) s)
    | none => .vStr s
  | p => primEnc p

/-- Pointer handling plus the primitive projection (src/write.go:180-217):
a nil pointer becomes an empty placeholder under `SkipNilPointer`,
otherwise it survives to the final `v.Interface()` append; a non-nil
pointer is dereferenced. -/
def encodeFieldValue (wc : WriteConfig) (tag : String) (v : Value) : EncVal :=
  match v with
  | .ptrV none => if wc.skipNilPointer then .vStr "" else .vNilPtr
  | .ptrV (some p) => encodePrim wc tag p
  | .base p => encodePrim wc tag p

/-- The `basicType` of the validation block (src/write.go:140-142): the
field's kind, or the element kind for a pointer. -/
def basicKindOf : FieldType → Option PKind
  | .fBase k => some k
  | .fPtr k => some k
  | _ => none

/-- The data-validation block of `write0` (src/write.go:144-177): boolean
columns get a two-choice constraint, string columns with a drop-list entry
get the list of display values. -/
def validationsFor (wc : WriteConfig) (fe : Field) (tag : String) (rowNum colIndex : Nat) :
    List DataValidation :=
  match basicKindOf fe.type with
  | some .kBool =>
    if wc.chineseBool then
      [⟨rowNum, colIndex, isPtrField fe.type, ["是", "否"], "应该为 是或否"⟩]
    else
      [⟨rowNum, colIndex, isPtrField fe.type, ["TRUE", "FALSE"], "should be TRUE or FALSE"⟩]
  | some .kString =>
    match dropListLookup wc.dropListMap tag with
    | some entries =>
      [⟨rowNum, colIndex, isPtrField fe.type, entries.map (·.value),
        "应该为 " ++ String.intercalate "、" (entries.map (·.value)) ++ " 中之一"⟩]
    | none => []
  | _ => []

/-- The per-field body of `write0`'s data loop (src/write.go:125-218):
unexported fields are skipped (`!v.CanInterface()`), untagged fields are
skipped under `SkipNoTag`, then validations are attached at the running
column index and exactly one value is appended. -/
def projectFields (wc : WriteConfig) (rowNum : Nat) :
    List (Field × Value) → List EncVal → List DataValidation →
    List EncVal × List DataValidation
  | [], data, vals => (data, vals)
  | (fe, v) :: rest, data, vals =>
    if fe.exported = false then projectFields wc rowNum rest data vals
    else if fe.tag = none ∧ wc.skipNoTag then projectFields wc rowNum rest data vals
    else
      let tag := fe.tag.getD ""
      let newVals := validationsFor wc fe tag rowNum data.length
      projectFields wc rowNum rest (data ++ [encodeFieldValue wc tag v]) (vals ++ newVals)

/-- `write0` (src/write.go:93-224).  The `WriteConfigure` callback of the
first record is modelled by `configure`, invoked on the default
configuration only when the slice is nonempty; a record is the list of its
field values, aligned with `typ.fields`. -/
def write0 (typ : StructType) (ts : List Record) (configure : WriteConfig → WriteConfig)
    (f : XFile) : XFile :=
  let wc := if 0 < ts.length then configure defaultWriteConfig else defaultWriteConfig
  let sheet0 : Sheet := ⟨wc.sheetName, [], []⟩
  let sheet1 := writeRow sheet0 (headerData typ wc) wc
  let sheetF :=
    if 0 < ts.length then
      ts.enum.foldl
        (fun sheet p =>
          let pr := projectFields wc (p.1 + 1) (typ.fields.zip p.2) [] []
          writeRow { sheet with validations := sheet.validations ++ pr.2 } pr.1 wc)
        sheet1
    else sheet1
  { f with sheets := f.sheets ++ [sheetF] }

/-- `NewFileFromSlice` (src/write.go:65-69): `write0` against a fresh
document (`xlsx.NewFile()` has no sheets and the 1900 epoch).  `WriteFile`
and `WriteTo` build the same document and only differ in where they save
it. -/
def newFileFromSlice (typ : StructType) (ts : List Record)
    (configure : WriteConfig → WriteConfig) : XFile :=
  write0 typ ts configure ⟨[], false⟩

/-! ### Derived notions used by the theorems -/

/-- No interface-phase check of `GetUnmarshalFunc` fires for this
descriptor. -/
def ifaceMiss (d : TypeDesc) : Prop :=
  d.canInterface = false ∨
    (d.capExcelUnmarshaler = false ∧ d.isTimeTime = false ∧ d.capTextUnmarshaler = false)

/-- The conversion failure a bound cell would contribute, if any (the
error component of a cell's action is independent of the current field
value). -/
def cellErr? (rc : ReadConfig) (params : ExcelUnmarshalParameters) (fld : Field)
    (header : String) (routine : RoutineName) (cell : RawCell) : Option UErr :=
  match cellAction rc params fld header routine cell with
  | .panic => none
  | .setTo _ e => e
  | .keep e => e

/-- Whether a bound cell raises the Go runtime panic. -/
def cellPanics (rc : ReadConfig) (params : ExcelUnmarshalParameters) (fld : Field)
    (header : String) (routine : RoutineName) (cell : RawCell) : Bool :=
  match cellAction rc params fld header routine cell with
  | .panic => true
  | _ => false

/-- The conversion failures of one row against an enumerated binding plan,
in column order. -/
def colFailures (typ : StructType) (rc : ReadConfig) (params : ExcelUnmarshalParameters)
    (colsE : List (Nat × FieldInfo)) (row : List RawCell) (rowIndex : Nat) :
    List FieldError :=
  colsE.filterMap fun p =>
    match p.2.unmarshalFunc with
    | none => none
    | some routine =>
      (cellErr? rc params (typ.fields.getD p.2.reflectFieldIndex noField) p.2.header routine
          (getCellAt row p.1)).map
        fun e => ⟨rowIndex, p.1, p.2.header, e⟩

/-- Whether any bound cell of one row panics. -/
def colsPanic (typ : StructType) (rc : ReadConfig) (params : ExcelUnmarshalParameters)
    (colsE : List (Nat × FieldInfo)) (row : List RawCell) : Bool :=
  colsE.any fun p =>
    match p.2.unmarshalFunc with
    | none => false
    | some routine =>
      cellPanics rc params (typ.fields.getD p.2.reflectFieldIndex noField) p.2.header routine
        (getCellAt row p.1)

/-- The conversion failures of the processed sheet region (the given row
indices at or past `DataStartRowIndex`), in row-then-column encounter
order. -/
def sheetFailures (typ : StructType) (rc : ReadConfig) (params : ExcelUnmarshalParameters)
    (cols : List FieldInfo) (sheet : Sheet) : List Nat → List FieldError
  | [] => []
  | i :: rest =>
    if rc.dataStartRowIndex.toNat ≤ i then
      colFailures typ rc params cols.enum (sheet.rowAt i) i ++
        sheetFailures typ rc params cols sheet rest
    else sheetFailures typ rc params cols sheet rest

/-- All conversion failures of a whole decode pass. -/
def allFailures (typ : StructType) (rc : ReadConfig) (params : ExcelUnmarshalParameters)
    (cols : List FieldInfo) (sheet : Sheet) : List FieldError :=
  sheetFailures typ rc params cols sheet (List.range sheet.maxRow)

/-- Whether any processed cell of the given rows panics. -/
def rowsPanics (typ : StructType) (rc : ReadConfig) (params : ExcelUnmarshalParameters)
    (cols : List FieldInfo) (sheet : Sheet) (idxs : List Nat) : Bool :=
  idxs.any fun i =>
    if rc.dataStartRowIndex.toNat ≤ i then
      colsPanic typ rc params cols.enum (sheet.rowAt i)
    else false

/-- Whether any processed cell of the sheet panics. -/
def sheetPanics (typ : StructType) (rc : ReadConfig) (params : ExcelUnmarshalParameters)
    (cols : List FieldInfo) (sheet : Sheet) : Bool :=
  rowsPanics typ rc params cols sheet (List.range sheet.maxRow)

/-- The field types the round-trip claim ranges over: supported primitive
kinds, their pointer forms, and the date/time types. -/
def supportedType : FieldType → Bool
  | .fUnsup => false
  | .fPtrUnsup => false
  | _ => true

/-- Well-typedness of a field value against a field type, with pointers
required non-nil. -/
def fitsStrict : FieldType → Value → Bool
  | .fBase .kBool, .base (.pB _) => true
  | .fBase .kInt, .base (.pI _) => true
  | .fBase .kUInt, .base (.pU _) => true
  | .fBase .kFloat, .base (.pF _) => true
  | .fBase .kString, .base (.pS _) => true
  | .fTime, .base (.pT _) => true
  | .fPtr .kBool, .ptrV (some (.pB _)) => true
  | .fPtr .kInt, .ptrV (some (.pI _)) => true
  | .fPtr .kUInt, .ptrV (some (.pU _)) => true
  | .fPtr .kFloat, .ptrV (some (.pF _)) => true
  | .fPtr .kString, .ptrV (some (.pS _)) => true
  | .fPtrTime, .ptrV (some (.pT _)) => true
  | _, _ => false

/-- A record type as the round-trip claim describes it: every field
exported and tagged, tags distinct, every field type supported. -/
def schemaOk (typ : StructType) : Prop :=
  (∀ f ∈ typ.fields, f.exported = true ∧ f.tag.isSome = true ∧ supportedType f.type = true) ∧
    (typ.fields.filterMap Field.tag).Nodup

/-- A record well-typed against a schema, with non-nil pointer fields. -/
def recordFits (typ : StructType) (r : Record) : Prop :=
  r.length = typ.fields.length ∧ ∀ p ∈ typ.fields.zip r, fitsStrict p.1.type p.2 = true

instance (typ : StructType) (r : Record) : Decidable (recordFits typ r) := by
  unfold recordFits
  infer_instance

instance (typ : StructType) : Decidable (schemaOk typ) := by
  unfold schemaOk
  infer_instance

/-- The routine `GetUnmarshalFunc` resolves for each supported field type of
an exported field (`unmarshalFunc_supported` below); the value at the
unsupported types is never used. -/
def routineFor : FieldType → RoutineName
  | .fBase k => .builtin k
  | .fPtr k => .pointerWrapped k
  | .fTime => .timeRoutine
  | .fPtrTime => .textUnmarshaler
  | .fUnsup => .timeRoutine
  | .fPtrUnsup => .timeRoutine

/-- The cell `write0` emits for one field value. -/
def encCell (wc : WriteConfig) (fe : Field) (v : Value) : RawCell :=
  writeCell wc (encodeFieldValue wc (fe.tag.getD "") v)

/-- The data row `write0` emits for one record. -/
def dataRowOf (typ : StructType) (wc : WriteConfig) (t : Record) : List RawCell :=
  (typ.fields.zip t).map fun p => encCell wc p.1 p.2

/-- The header row `write0` emits for a fully tagged, fully exported type. -/
def headerRowOf (typ : StructType) : List RawCell :=
  typ.fields.map fun f => .str (f.tag.getD "")

/-- The binding plan the column binder produces for a fully tagged, fully
exported, fully supported type against its own header row. -/
def colsOf (typ : StructType) : List FieldInfo :=
  typ.fields.enum.map fun p => ⟨p.1, p.2.tag.getD "", some (routineFor p.2.type)⟩

/-- Overwrite consecutive positions of a record, starting at an index. -/
def setFrom : Record → Nat → List Value → Record
  | val, _, [] => val
  | val, j, v :: vs => setFrom (val.set j v) (j + 1) vs

/-- A type with one field of every supported kind and form. -/
def tyAll : StructType := ⟨[
  ⟨"B", some "b", true, .fBase .kBool⟩, ⟨"I", some "i", true, .fBase .kInt⟩,
  ⟨"U", some "u", true, .fBase .kUInt⟩, ⟨"F", some "f", true, .fBase .kFloat⟩,
  ⟨"S", some "s", true, .fBase .kString⟩, ⟨"T", some "t", true, .fTime⟩,
  ⟨"PB", some "pb", true, .fPtr .kBool⟩, ⟨"PI", some "pi", true, .fPtr .kInt⟩,
  ⟨"PU", some "pu", true, .fPtr .kUInt⟩, ⟨"PF", some "pf", true, .fPtr .kFloat⟩,
  ⟨"PS", some "ps", true, .fPtr .kString⟩, ⟨"PT", some "pt", true, .fPtrTime⟩]⟩

/-- A record of `tyAll` exercising every field form with non-nil pointers. -/
def recAll : Record := [.base (.pB true), .base (.pI (-7)), .base (.pU 42),
  .base (.pF ⟨-25, 1⟩), .base (.pS " hi "), .base (.pT ⟨449275, 1⟩),
  .ptrV (some (.pB false)), .ptrV (some (.pI 3)), .ptrV (some (.pU 0)),
  .ptrV (some (.pF ⟨0, 0⟩)), .ptrV (some (.pS "")), .ptrV (some (.pT ⟨12, 0⟩))]

/-! ### Concrete fixtures for witnesses and counterexamples -/

/-- A one-field type `struct { A *int `excel:"a"` }`. -/
def tyPtrInt : StructType := ⟨[⟨"A", some "a", true, .fPtr .kInt⟩]⟩

/-- One record of `tyPtrInt` whose pointer is nil. -/
def recNilPtr : Record := [.ptrV none]

/-- A one-field type `struct { A *bool `excel:"a"` }`. -/
def tyPtrBool : StructType := ⟨[⟨"A", some "a", true, .fPtr .kBool⟩]⟩

/-- A one-field type `struct { A bool `excel:"a"` }`. -/
def tyBool : StructType := ⟨[⟨"A", some "a", true, .fBase .kBool⟩]⟩

/-- A one-field type `struct { A int `excel:"a"` }`. -/
def tyInt : StructType := ⟨[⟨"A", some "a", true, .fBase .kInt⟩]⟩

/-- A one-field string type bound to column tag `col`. -/
def tyStr : StructType := ⟨[⟨"C", some "col", true, .fBase .kString⟩]⟩

/-- A drop-list read configuration mapping column `col` to `{k ↦ v}`. -/
def rcDrop : ReadConfig :=
  { defaultReadConfig with dropListMap := some [("col", [⟨"k", "v"⟩])] }

/-- A collect-policy configuration with a cap of 2. -/
def rcCollect2 : ReadConfig :=
  { defaultReadConfig with unmarshalErrorHandling := .collect, maxUnmarshalErrors := 2 }

/-- A collect-policy configuration with no cap. -/
def rcCollect0 : ReadConfig :=
  { defaultReadConfig with unmarshalErrorHandling := .collect, maxUnmarshalErrors := 0 }

/-- A sheet for `tyInt` with header `a` and three malformed data cells. -/
def sheetBad3 : Sheet := ⟨"s", [[.str "a"], [.str "x"], [.str "y"], [.str "z"]], []⟩

def fileBad3 : XFile := ⟨[sheetBad3], false⟩

def paramsDefault : ExcelUnmarshalParameters := ⟨false, false, []⟩

/-- A document whose single data cell under header `a` is the localized
true token. -/
def fileBoolCn : XFile := ⟨[⟨"s", [[.str "a"], [.str "是"]], []⟩], false⟩

/-- A document whose single data cell under header `col` is the text `x`,
absent from `rcDrop`'s drop list for that column. -/
def fileDropX : XFile := ⟨[⟨"s", [[.str "col"], [.str "x"]], []⟩], false⟩

/-- A one-field type whose field type is unsupported (struct kind, no
capabilities). -/
def tyUnsup : StructType := ⟨[⟨"A", some "a", true, .fUnsup⟩]⟩

def rcNoSkipCols : ReadConfig := { defaultReadConfig with skipUnknownColumns := false }

def rcSkipTypes : ReadConfig := { defaultReadConfig with skipUnknownTypes := true }

/-- Descriptor of a custom type: underlying primitive kind with the
`ExcelUnmarshaler` capability (and a built-in existing for its kind). -/
def descCustomInt : TypeDesc := ⟨true, true, false, false, .prim .kInt, .structKind⟩

/-!
## Theorems

General helper lemmas first, then one theorem per claim (with its witness
or counterexample where required).
-/

theorem writeCell_default : writeCell defaultWriteConfig = setValueCell := by
  funext x
  cases x <;> rfl

theorem dropFold_notMem (g h : DropEntry → String) (l : List DropEntry) (x : String)
    (acc : String) (hno : ∀ e ∈ l, g e ≠ x) :
    l.foldl (fun acc ent => if g ent == x then h ent else acc) acc = acc := by
  induction l generalizing acc with
  | nil => rfl
  | cons a l ih =>
    have ha : (g a == x) = false := beq_eq_false_iff_ne.mpr (hno a (by simp))
    simp only [List.foldl_cons, ha, Bool.false_eq_true, if_false]
    exact ih acc fun e he => hno e (by simp [he])

theorem dropFold_mem (g h : DropEntry → String) (l : List DropEntry) (x : String)
    (acc : String) (e0 : DropEntry) (he : e0 ∈ l) (hgx : g e0 = x)
    (hnd : (l.map g).Nodup) :
    l.foldl (fun acc ent => if g ent == x then h ent else acc) acc = h e0 := by
  induction l generalizing acc with
  | nil => cases he
  | cons a l ih =>
    rcases List.mem_cons.mp he with rfl | he'
    · have hx : ∀ ent ∈ l, g ent ≠ x := by
        intro ent hent hgent
        exact (List.nodup_cons.mp hnd).1
          (by simpa [hgent, hgx] using List.mem_map_of_mem g hent)
      simp only [List.foldl_cons, hgx, beq_self_eq_true, if_true]
      exact dropFold_notMem g h l x (h e0) hx
    · have hne : g a ≠ x := by
        intro hax
        exact (List.nodup_cons.mp hnd).1
          (by simpa [hax, ← hgx] using
            (hgx ▸ List.mem_map_of_mem g he' : g e0 ∈ l.map g))
      simp only [List.foldl_cons, beq_eq_false_iff_ne.mpr hne, Bool.false_eq_true, if_false]
      exact ih acc he' (List.nodup_cons.mp hnd).2

/-- **C10.** Encoding an empty record slice never invokes the per-record
write-configuration callback (the result is the same for every callback),
and produces a document with exactly one sheet, named by the default sheet
name, containing only the header row derived from the record type under
the default write configuration — no data rows. -/
theorem write0_empty_slice (typ : StructType) (configure : WriteConfig → WriteConfig) :
    newFileFromSlice typ [] configure =
      ⟨[⟨"Sheet1", [(headerData typ defaultWriteConfig).map setValueCell], []⟩], false⟩ := by
  simp [newFileFromSlice, write0, writeRow, writeCell_default]
  rfl

/-- **C8.** For a bound pointer-typed field, with the nil-on-empty option
set and empty raw cell text, decoding leaves the field unchanged (at its
nil zero value) and performs no conversion and no special-case transform. -/
theorem nil_on_empty (rc : ReadConfig) (params : ExcelUnmarshalParameters) (fld : Field)
    (header : String) (routine : RoutineName) (cell : RawCell) (cur : Value)
    (h1 : rc.pointerCanNil = true) (h2 : isPtrField fld.type = true)
    (h3 : cell.value = "") :
    processCell rc params fld header routine cell cur = .ok (cur, none) := by
  simp [processCell, cellAction, h1, h2, h3]

theorem nil_on_empty_witness :
    processCell { defaultReadConfig with pointerCanNil := true } paramsDefault
        ⟨"A", some "a", true, .fPtr .kInt⟩ "a" (.pointerWrapped .kInt) .empty (.ptrV none) =
      .ok (.ptrV none, none) :=
  nil_on_empty _ _ _ _ _ _ _ rfl rfl rfl

/-- **C9.** A bound `*time.Time` column that is not skipped by the
nil-on-empty rule never produces a conversion error: the raw cell text is
parsed as a number with a silent fallback to zero, and the field is always
set to a non-nil pointer to the date computed from that number under the
document's epoch. -/
theorem ptr_time_never_errors (rc : ReadConfig) (params : ExcelUnmarshalParameters)
    (fld : Field) (header : String) (routine : RoutineName) (cell : RawCell) (cur : Value)
    (ht : fld.type = .fPtrTime) (he : fld.exported = true)
    (hskip : ¬(rc.pointerCanNil = true ∧ cell.value = "")) :
    processCell rc params fld header routine cell cur =
      .ok (.ptrV (some (.pT (timeFromExcelTime (cell.parseFloat?.getD ⟨0, 0⟩)
        params.date1904))), none) := by
  rcases not_and_or.mp hskip with ha | hb
  · have ha' : rc.pointerCanNil = false := by
      simpa [Bool.not_eq_true] using ha
    simp [processCell, cellAction, ha', ht, he]
  · simp [processCell, cellAction, hb, ht, he]

theorem ptr_time_never_errors_witness :
    processCell defaultReadConfig paramsDefault ⟨"A", some "a", true, .fPtrTime⟩ "a"
        .textUnmarshaler (.str "not a number") (.ptrV none) =
      .ok (.ptrV (some (.pT ⟨0, 0⟩)), none) :=
  ptr_time_never_errors _ _ _ _ _ _ _ rfl rfl (by decide)

/-- **C3.** For a plain boolean field the localized tokens decode to
true/false ahead of the generic routine, and other text falls through to
the generic routine, failing when not canonical — but for a
nullable-boolean (`*bool`) field, the localized-token branch executes
`destField.Set(reflect.ValueOf(&cell.Value))`, assigning a `*string` into
the `*bool` field: an unconditional reflect type-mismatch panic, so the
claim's "yields true" fails on the code there.  The last two conjuncts
evaluate the code at the failing input, at cell level and at whole-read
level. -/
theorem localized_bool_decode :
    processCell defaultReadConfig paramsDefault ⟨"A", some "a", true, .fBase .kBool⟩ "a"
        (.builtin .kBool) (.str "是") (.base (.pB false)) = .ok (.base (.pB true), none) ∧
    processCell defaultReadConfig paramsDefault ⟨"A", some "a", true, .fBase .kBool⟩ "a"
        (.builtin .kBool) (.str "否") (.base (.pB true)) = .ok (.base (.pB false), none) ∧
    processCell defaultReadConfig paramsDefault ⟨"A", some "a", true, .fBase .kBool⟩ "a"
        (.builtin .kBool) (.str "TRUE") (.base (.pB false)) = .ok (.base (.pB true), none) ∧
    processCell defaultReadConfig paramsDefault ⟨"A", some "a", true, .fBase .kBool⟩ "a"
        (.builtin .kBool) (.str "yes") (.base (.pB false)) =
      .ok (.base (.pB false), some (.parse .kBool "yes")) ∧
    processCell defaultReadConfig paramsDefault ⟨"A", some "a", true, .fPtr .kBool⟩ "a"
        (.pointerWrapped .kBool) (.str "是") (.ptrV none) = .error () ∧
    readBinary tyPtrBool defaultReadConfig fileBoolCn [] =
      .error (.reflectPanic "reflect.Set: *string into *bool") := by
  refine ⟨by decide, by decide, by decide, by decide, by decide, by decide⟩

/-- **C2, counterexample.** With the drop list `{k ↦ v}` configured for
column `col`, decoding the cell text `x` — absent from the table's value
set — stores the empty string, not the raw text `x` as the claim states. -/
theorem droplist_absent_not_verbatim :
    readBinary tyStr rcDrop fileDropX [] = .ok [[.base (.pS "")]] ∧
      (Value.base (.pS "")) ≠ (Value.base (.pS "x")) := by
  refine ⟨by decide, by decide⟩

/-- **C2, amended.** For a drop-list table configured for a column and a
string or nullable-string field bound to it (and not preempted by the
nil-on-empty rule): decoding a cell whose raw text equals a display value
of the table stores exactly the associated key; decoding a cell whose raw
text is absent from the table's value set stores the *empty string* (the
zero key), not the raw text; encoding a field value that is a key of the
table emits its display value; encoding a value absent from the key set
emits the value itself. -/
theorem droplist_translation :
    (∀ (rc : ReadConfig) (params : ExcelUnmarshalParameters) (fld : Field) (header : String)
        (routine : RoutineName) (cur : Value) (cell : RawCell) (entries : List DropEntry)
        (k : String),
      (fld.type = .fBase .kString ∨ fld.type = .fPtr .kString) → fld.exported = true →
      ¬(rc.pointerCanNil = true ∧ cell.value = "") →
      dropListLookup rc.dropListMap header = some entries →
      (⟨k, cell.value⟩ : DropEntry) ∈ entries → (entries.map DropEntry.value).Nodup →
      processCell rc params fld header routine cell cur =
        .ok (if isPtrField fld.type then .ptrV (some (.pS k)) else .base (.pS k), none)) ∧
    (∀ (rc : ReadConfig) (params : ExcelUnmarshalParameters) (fld : Field) (header : String)
        (routine : RoutineName) (cur : Value) (cell : RawCell) (entries : List DropEntry),
      (fld.type = .fBase .kString ∨ fld.type = .fPtr .kString) → fld.exported = true →
      ¬(rc.pointerCanNil = true ∧ cell.value = "") →
      dropListLookup rc.dropListMap header = some entries →
      (∀ e ∈ entries, e.value ≠ cell.value) →
      processCell rc params fld header routine cell cur =
        .ok (if isPtrField fld.type then .ptrV (some (.pS "")) else .base (.pS ""), none)) ∧
    (∀ (wc : WriteConfig) (tag : String) (entries : List DropEntry) (k v : String),
      dropListLookup wc.dropListMap tag = some entries →
      (⟨k, v⟩ : DropEntry) ∈ entries → (entries.map DropEntry.key).Nodup →
      encodePrim wc tag (.pS k) = .vStr v) ∧
    (∀ (wc : WriteConfig) (tag : String) (entries : List DropEntry) (s : String),
      dropListLookup wc.dropListMap tag = some entries →
      (∀ e ∈ entries, e.key ≠ s) →
      encodePrim wc tag (.pS s) = .vStr s) := by
  refine ⟨?_, ?_, ?_, ?_⟩
  · intro rc params fld header routine cur cell entries k hstr hexp hskip hdl hmem hnd
    have hfold := dropFold_mem DropEntry.value DropEntry.key entries cell.value ""
      ⟨k, cell.value⟩ hmem rfl hnd
    simp only [beq_iff_eq] at hfold
    rcases not_and_or.mp hskip with ha | hb
    · have ha' : rc.pointerCanNil = false := by
        simpa [Bool.not_eq_true] using ha
      rcases hstr with h | h <;>
        simp [processCell, cellAction, ha', h, hexp, hdl, hfold, isPtrField]
    · rcases hstr with h | h <;>
        simp [processCell, cellAction, hb, h, hexp, hdl, hfold, isPtrField]
  · intro rc params fld header routine cur cell entries hstr hexp hskip hdl hno
    have hfold := dropFold_notMem DropEntry.value DropEntry.key entries cell.value "" hno
    simp only [beq_iff_eq] at hfold
    rcases not_and_or.mp hskip with ha | hb
    · have ha' : rc.pointerCanNil = false := by
        simpa [Bool.not_eq_true] using ha
      rcases hstr with h | h <;>
        simp [processCell, cellAction, ha', h, hexp, hdl, hfold, isPtrField]
    · rcases hstr with h | h <;>
        simp [processCell, cellAction, hb, h, hexp, hdl, hfold, isPtrField]
  · intro wc tag entries k v hdl hmem hnd
    have hfold := dropFold_mem DropEntry.key DropEntry.value entries k k ⟨k, v⟩ hmem rfl hnd
    simp only [beq_iff_eq] at hfold
    simp [encodePrim, hdl, hfold]
  · intro wc tag entries s hdl hno
    have hfold := dropFold_notMem DropEntry.key DropEntry.value entries s s hno
    simp only [beq_iff_eq] at hfold
    simp [encodePrim, hdl, hfold]

/-- Closed instance of `droplist_translation`, with the table `{k ↦ v}`
bound to column `col`: the display value `v` decodes to the key `k`, the
absent value `x` decodes to `""`, the key `k` encodes to `v`, and the
absent key `z` encodes to itself. -/
theorem droplist_translation_witness :
    processCell rcDrop paramsDefault ⟨"C", some "col", true, .fBase .kString⟩ "col"
        (.builtin .kString) (.str "v") (.base (.pS "")) = .ok (.base (.pS "k"), none) ∧
    processCell rcDrop paramsDefault ⟨"C", some "col", true, .fBase .kString⟩ "col"
        (.builtin .kString) (.str "x") (.base (.pS "")) = .ok (.base (.pS ""), none) ∧
    encodePrim { defaultWriteConfig with dropListMap := some [("col", [⟨"k", "v"⟩])] } "col"
        (.pS "k") = .vStr "v" ∧
    encodePrim { defaultWriteConfig with dropListMap := some [("col", [⟨"k", "v"⟩])] } "col"
        (.pS "z") = .vStr "z" := by
  refine ⟨?_, ?_, ?_, ?_⟩
  · exact droplist_translation.1 rcDrop paramsDefault _ "col" _ _ (.str "v") [⟨"k", "v"⟩] "k"
      (Or.inl rfl) rfl (by decide) (by decide) (by decide) (by decide)
  · exact droplist_translation.2.1 rcDrop paramsDefault _ "col" _ _ (.str "x") [⟨"k", "v"⟩]
      (Or.inl rfl) rfl (by decide) (by decide) (by decide)
  · exact droplist_translation.2.2.1 _ "col" [⟨"k", "v"⟩] "k" "v" (by decide) (by decide)
      (by decide)
  · exact droplist_translation.2.2.2 _ "col" [⟨"k", "v"⟩] "z" (by decide) (by decide)

/-- **C7.** Conversion-routine resolution, first match winning: the custom
Excel-unmarshal capability wins (even when a built-in exists for the
underlying kind — the descriptor quantification includes those); else the
`time.Time` type gets the date/time routine; else the text-parse capability
gets the text routine; else the primitive kind selects a built-in; a
pointer to a supported primitive kind gets the wrapped routine, which
allocates a fresh target, delegates, attaches it by reference on success
and propagates the failure unchanged otherwise; when nothing matches,
resolution reports no routine available. -/
theorem resolution_precedence :
    (∀ d : TypeDesc, d.canInterface = true → d.capExcelUnmarshaler = true →
      GetUnmarshalFunc d = some .excelUnmarshaler) ∧
    (∀ d : TypeDesc, d.canInterface = true → d.capExcelUnmarshaler = false →
      d.isTimeTime = true → GetUnmarshalFunc d = some .timeRoutine) ∧
    (∀ d : TypeDesc, d.canInterface = true → d.capExcelUnmarshaler = false →
      d.isTimeTime = false → d.capTextUnmarshaler = true →
      GetUnmarshalFunc d = some .textUnmarshaler) ∧
    (∀ (d : TypeDesc) (k : PKind), ifaceMiss d → d.kind = .prim k →
      GetUnmarshalFunc d = some (.builtin k)) ∧
    (∀ (d : TypeDesc) (k : PKind), ifaceMiss d → d.kind = .ptrKind →
      d.elemKind = .prim k → GetUnmarshalFunc d = some (.pointerWrapped k)) ∧
    (∀ (cell : RawCell) (params : ExcelUnmarshalParameters) (cur : Value) (k : PKind)
        (p : Prim), cellParsePrim k cell params = .ok p →
      applyRoutine (.pointerWrapped k) cell params cur = (.ptrV (some p), none)) ∧
    (∀ (cell : RawCell) (params : ExcelUnmarshalParameters) (cur : Value) (k : PKind)
        (e : UErr), cellParsePrim k cell params = .error e →
      applyRoutine (.pointerWrapped k) cell params cur = (.ptrV (some (zeroPrim k)), some e)) ∧
    (∀ d : TypeDesc, ifaceMiss d →
      (∀ k : PKind, (if d.kind = .ptrKind then d.elemKind else d.kind) ≠ .prim k) →
      GetUnmarshalFunc d = none) := by
  have hkindPrim : ∀ (d : TypeDesc) (k : PKind), d.kind = .prim k →
      getUnmarshalFuncKind d = some (.builtin k) := by
    intro d k hk
    simp [getUnmarshalFuncKind, hk, defaultUnmarshalFuncs]
  have hkindPtr : ∀ (d : TypeDesc) (k : PKind), d.kind = .ptrKind → d.elemKind = .prim k →
      getUnmarshalFuncKind d = some (.pointerWrapped k) := by
    intro d k hk he
    simp [getUnmarshalFuncKind, hk, he, defaultUnmarshalFuncs]
  have hkindNone : ∀ d : TypeDesc,
      (∀ k : PKind, (if d.kind = .ptrKind then d.elemKind else d.kind) ≠ .prim k) →
      getUnmarshalFuncKind d = none := by
    intro d hno
    have hd : defaultUnmarshalFuncs (if d.kind = .ptrKind then d.elemKind else d.kind)
        = none := by
      cases h : (if d.kind = .ptrKind then d.elemKind else d.kind) with
      | prim k => exact absurd h (hno k)
      | ptrKind => rfl
      | structKind => rfl
    by_cases hp : d.kind = .ptrKind
    · simp only [hp, if_true] at hd
      simp [getUnmarshalFuncKind, hp, hd]
    · simp only [hp, if_false] at hd
      simp [getUnmarshalFuncKind, hp, hd]
  have hmiss : ∀ d : TypeDesc, ifaceMiss d →
      GetUnmarshalFunc d = getUnmarshalFuncKind d := by
    intro d hm
    rcases hm with hci | ⟨he, ht, hx⟩
    · simp [GetUnmarshalFunc, hci]
    · simp [GetUnmarshalFunc, he, ht, hx]
  refine ⟨?_, ?_, ?_, ?_, ?_, ?_, ?_, ?_⟩
  · intro d h1 h2
    simp [GetUnmarshalFunc, h1, h2]
  · intro d h1 h2 h3
    simp [GetUnmarshalFunc, h1, h2, h3]
  · intro d h1 h2 h3 h4
    simp [GetUnmarshalFunc, h1, h2, h3, h4]
  · intro d k hm hk
    rw [hmiss d hm]
    exact hkindPrim d k hk
  · intro d k hm hk he
    rw [hmiss d hm]
    exact hkindPtr d k hk he
  · intro cell params cur k p hp
    simp [applyRoutine, applyRoutineAct, hp]
  · intro cell params cur k e hp
    simp [applyRoutine, applyRoutineAct, hp]
  · intro d hm hno
    rw [hmiss d hm]
    exact hkindNone d hno

/-- Closed instances of `resolution_precedence`: a custom-capable type of
underlying kind int resolves to the custom routine (not the built-in); a
plain `*int` resolves to the wrapped built-in, whose success attaches a
fresh value by reference and whose failure leaves a pointer to the zero
value and the original error. -/
theorem resolution_precedence_witness :
    GetUnmarshalFunc descCustomInt = some .excelUnmarshaler ∧
    GetUnmarshalFunc (FieldType.desc true (.fPtr .kInt)) = some (.pointerWrapped .kInt) ∧
    applyRoutine (.pointerWrapped .kInt) (.str "7") paramsDefault (.ptrV none) =
      (.ptrV (some (.pI 7)), none) ∧
    applyRoutine (.pointerWrapped .kInt) (.str "oops") paramsDefault (.ptrV none) =
      (.ptrV (some (.pI 0)), some (.parse .kInt "oops")) := by
  refine ⟨?_, ?_, ?_, ?_⟩
  · exact resolution_precedence.1 descCustomInt rfl rfl
  · exact resolution_precedence.2.2.2.2.1 (FieldType.desc true (.fPtr .kInt)) .kInt
      (Or.inr ⟨rfl, rfl, rfl⟩) rfl rfl
  · exact resolution_precedence.2.2.2.2.2.1 (.str "7") paramsDefault (.ptrV none) .kInt
      (.pI 7) (by decide)
  · exact resolution_precedence.2.2.2.2.2.2.1 (.str "oops") paramsDefault (.ptrV none) .kInt
      (.parse .kInt "oops") (by decide)

/-- **C6.** Column binding, by position: a header absent from the tag map
is skipped under "skip unknown columns" (the default) and otherwise fails
the whole decode call with an unresolved-column error naming the header and
its position; a header present in the tag map whose field resolves no
conversion routine is skipped under "skip unknown types" (default false)
and otherwise fails the call with an unsupported-type error naming the
header and position.  The last conjunct propagates a binding error to the
whole `ReadBinary` call. -/
theorem column_binding_policies :
    (defaultReadConfig.skipUnknownColumns = true ∧
      defaultReadConfig.skipUnknownTypes = false) ∧
    (∀ (typ : StructType) (rc : ReadConfig) (i : Nat) (h : String),
      tagLookup (tagToFieldPairs typ.fields) h = none → rc.skipUnknownColumns = true →
      bindOne typ rc i h = .ok ⟨0, h, none⟩) ∧
    (∀ (typ : StructType) (rc : ReadConfig) (i : Nat) (h : String),
      tagLookup (tagToFieldPairs typ.fields) h = none → rc.skipUnknownColumns = false →
      bindOne typ rc i h = .error (.noDestinationField h i)) ∧
    (∀ (typ : StructType) (rc : ReadConfig) (i : Nat) (h : String) (fidx : Nat),
      tagLookup (tagToFieldPairs typ.fields) h = some fidx →
      (typ.fields.getD fidx noField).type.unmarshalFunc
        (typ.fields.getD fidx noField).exported = none →
      rc.skipUnknownTypes = true → bindOne typ rc i h = .ok ⟨fidx, h, none⟩) ∧
    (∀ (typ : StructType) (rc : ReadConfig) (i : Nat) (h : String) (fidx : Nat),
      tagLookup (tagToFieldPairs typ.fields) h = some fidx →
      (typ.fields.getD fidx noField).type.unmarshalFunc
        (typ.fields.getD fidx noField).exported = none →
      rc.skipUnknownTypes = false → bindOne typ rc i h = .error (.noUnmarshaler h i)) ∧
    (∀ (typ : StructType) (rc : ReadConfig) (i : Nat) (h : String) (hs : List String),
      bindColumnsAux typ rc i (h :: hs) =
        (bindOne typ rc i h).bind fun fi =>
          (bindColumnsAux typ rc (i + 1) hs).map fun rest => fi :: rest) ∧
    (∀ (typ : StructType) (rc : ReadConfig) (f : XFile) (filters : List (Record → Bool))
        (e : ReadErr),
      ¬(rc.sheetIndex < 0 ∨ (f.sheets.length : Int) - 1 < rc.sheetIndex) →
      ¬(rc.headerRowIndex < 0 ∨
        ((f.sheets.getD rc.sheetIndex.toNat noSheet).maxRow : Int) - 1 < rc.headerRowIndex) →
      ¬(rc.dataStartRowIndex < 0 ∨
        ((f.sheets.getD rc.sheetIndex.toNat noSheet).maxRow : Int) - 1
          < rc.dataStartRowIndex) →
      bindColumns typ rc
        (readStrings (f.sheets.getD rc.sheetIndex.toNat noSheet).maxCol
          ((f.sheets.getD rc.sheetIndex.toNat noSheet).rowAt rc.headerRowIndex.toNat)) =
        .error e →
      readBinary typ rc f filters = .error e) := by
  refine ⟨⟨rfl, rfl⟩, ?_, ?_, ?_, ?_, ?_, ?_⟩
  · intro typ rc i h hl hskip
    simp [bindOne, hl, hskip]
  · intro typ rc i h hl hskip
    simp [bindOne, hl, hskip]
  · intro typ rc i h fidx hl hu hskip
    simp only [bindOne, hl]
    rw [hu]
    simp [hskip]
  · intro typ rc i h fidx hl hu hskip
    simp only [bindOne, hl]
    rw [hu]
    simp [hskip]
  · intro typ rc i h hs
    cases hb : bindOne typ rc i h with
    | error e =>
      simp only [bindColumnsAux, hb]
      rfl
    | ok fi =>
      cases hr : bindColumnsAux typ rc (i + 1) hs with
      | error e =>
        simp only [bindColumnsAux, hb, hr]
        rfl
      | ok rest =>
        simp only [bindColumnsAux, hb, hr]
        rfl
  · intro typ rc f filters e h1 h2 h3 hbind
    simp only [readBinary, h1, h2, h3, if_false, hbind]

/-- Closed instances of `column_binding_policies` covering the four policy
outcomes. -/
theorem column_binding_policies_witness :
    bindOne tyInt defaultReadConfig 2 "zzz" = .ok ⟨0, "zzz", none⟩ ∧
    bindOne tyInt rcNoSkipCols 2 "zzz" = .error (.noDestinationField "zzz" 2) ∧
    bindOne tyUnsup rcSkipTypes 0 "a" = .ok ⟨0, "a", none⟩ ∧
    bindOne tyUnsup defaultReadConfig 0 "a" = .error (.noUnmarshaler "a" 0) := by
  refine ⟨?_, ?_, ?_, ?_⟩
  · exact column_binding_policies.2.1 tyInt defaultReadConfig 2 "zzz" (by decide) rfl
  · exact column_binding_policies.2.2.1 tyInt rcNoSkipCols 2 "zzz" (by decide) rfl
  · exact column_binding_policies.2.2.2.1 tyUnsup rcSkipTypes 0 "a" 0 (by decide)
      (by decide) rfl
  · exact column_binding_policies.2.2.2.2.1 tyUnsup defaultReadConfig 0 "a" 0 (by decide)
      (by decide) rfl

theorem processCell_no_panic (rc : ReadConfig) (params : ExcelUnmarshalParameters)
    (fld : Field) (header : String) (routine : RoutineName) (cell : RawCell) (cur : Value)
    (h : cellPanics rc params fld header routine cell = false) :
    ∃ v, processCell rc params fld header routine cell cur =
      .ok (v, cellErr? rc params fld header routine cell) := by
  unfold cellPanics at h
  unfold processCell cellErr?
  cases hact : cellAction rc params fld header routine cell with
  | panic => rw [hact] at h; cases h
  | setTo v e => exact ⟨v, rfl⟩
  | keep e => exact ⟨cur, rfl⟩

theorem processCell_panic (rc : ReadConfig) (params : ExcelUnmarshalParameters)
    (fld : Field) (header : String) (routine : RoutineName) (cell : RawCell) (cur : Value)
    (h : cellPanics rc params fld header routine cell = true) :
    processCell rc params fld header routine cell cur = .error () := by
  unfold cellPanics at h
  unfold processCell
  cases hact : cellAction rc params fld header routine cell with
  | panic => rfl
  | setTo v e => rw [hact] at h; cases h
  | keep e => rw [hact] at h; cases h

/-- Under the collect policy with a positive cap, once the static failure
list of the remaining columns reaches the cap, the column loop halts with
exactly the capped prefix and the cap-reached flag. -/
theorem processColumns_collect_halt (typ : StructType) (rc : ReadConfig)
    (params : ExcelUnmarshalParameters) (row : List RawCell) (rowIndex : Nat)
    (colsE : List (Nat × FieldInfo)) (val : Record) (errs : List FieldError)
    (hpol : rc.unmarshalErrorHandling = .collect)
    (hlt : errs.length < rc.maxUnmarshalErrors)
    (hnp : colsPanic typ rc params colsE row = false)
    (hge : rc.maxUnmarshalErrors ≤
      errs.length + (colFailures typ rc params colsE row rowIndex).length) :
    processColumns typ rc params row rowIndex colsE val errs =
      .halt (.contentErr
        ⟨(errs ++ colFailures typ rc params colsE row rowIndex).take rc.maxUnmarshalErrors,
          true⟩) := by
  induction colsE generalizing val errs with
  | nil =>
    simp only [colFailures, List.filterMap_nil, List.length_nil, Nat.add_zero] at hge
    omega
  | cons p rest ih =>
    obtain ⟨colIndex, fi⟩ := p
    have hnp1 := hnp
    rw [colsPanic, List.any_cons, Bool.or_eq_false_iff] at hnp1
    obtain ⟨hnpHead, hnpRest⟩ := hnp1
    have hnpRest' : colsPanic typ rc params rest row = false := hnpRest
    cases hu : fi.unmarshalFunc with
    | none =>
      have hcf : colFailures typ rc params ((colIndex, fi) :: rest) row rowIndex =
          colFailures typ rc params rest row rowIndex := by
        simp only [colFailures, List.filterMap_cons, hu]
      rw [hcf] at hge
      simp only [processColumns, hu]
      rw [hcf]
      exact ih val errs hlt hnpRest' hge
    | some routine =>
      rw [hu] at hnpHead
      simp only at hnpHead
      obtain ⟨v', hv'⟩ := processCell_no_panic rc params
        (typ.fields.getD fi.reflectFieldIndex noField) fi.header routine
        (getCellAt row colIndex) (val.getD fi.reflectFieldIndex (.base (.pOther ""))) hnpHead
      simp only [processColumns, hu, hv']
      cases he : cellErr? rc params (typ.fields.getD fi.reflectFieldIndex noField) fi.header
          routine (getCellAt row colIndex) with
      | none =>
        have hcf : colFailures typ rc params ((colIndex, fi) :: rest) row rowIndex =
            colFailures typ rc params rest row rowIndex := by
          simp only [colFailures, List.filterMap_cons, hu, he, Option.map_none']
        rw [he] at hv'
        rw [hcf] at hge
        rw [hcf]
        exact ih _ errs hlt hnpRest' hge
      | some uerr =>
        have hcf : colFailures typ rc params ((colIndex, fi) :: rest) row rowIndex =
            ⟨rowIndex, colIndex, fi.header, uerr⟩ ::
              colFailures typ rc params rest row rowIndex := by
          simp only [colFailures, List.filterMap_cons, hu, he, Option.map_some']
        rw [he] at hv'
        rw [hcf] at hge ⊢
        simp only [hpol]
        by_cases hcap : 0 < rc.maxUnmarshalErrors ∧
            rc.maxUnmarshalErrors ≤
              (errs ++ [(⟨rowIndex, colIndex, fi.header, uerr⟩ : FieldError)]).length
        · rw [if_pos hcap]
          have hlen : rc.maxUnmarshalErrors = errs.length + 1 := by
            rcases hcap with ⟨_, h2⟩
            simp only [List.length_append, List.length_cons, List.length_nil] at h2
            omega
          have htake : (errs ++ (⟨rowIndex, colIndex, fi.header, uerr⟩ : FieldError) ::
              colFailures typ rc params rest row rowIndex).take rc.maxUnmarshalErrors =
              errs ++ [(⟨rowIndex, colIndex, fi.header, uerr⟩ : FieldError)] := by
            rw [show errs ++ (⟨rowIndex, colIndex, fi.header, uerr⟩ : FieldError) ::
                colFailures typ rc params rest row rowIndex =
                (errs ++ [(⟨rowIndex, colIndex, fi.header, uerr⟩ : FieldError)]) ++
                  colFailures typ rc params rest row rowIndex by simp]
            rw [List.take_append_of_le_length (by simp [hlen])]
            rw [List.take_of_length_le (by simp [hlen])]
          rw [htake]
          simp
        · rw [if_neg hcap]
          have hlt' : (errs ++ [(⟨rowIndex, colIndex, fi.header, uerr⟩ : FieldError)]).length
              < rc.maxUnmarshalErrors := by
            rcases Nat.lt_or_ge ((errs ++ [(⟨rowIndex, colIndex, fi.header, uerr⟩ :
                FieldError)]).length) rc.maxUnmarshalErrors with h | h
            · exact h
            · exact absurd ⟨Nat.zero_lt_of_lt hlt, h⟩ hcap
          have hge' : rc.maxUnmarshalErrors ≤
              (errs ++ [(⟨rowIndex, colIndex, fi.header, uerr⟩ : FieldError)]).length +
                (colFailures typ rc params rest row rowIndex).length := by
            simp only [List.length_append, List.length_cons, List.length_nil] at hge ⊢
            omega
          have := ih (val.set fi.reflectFieldIndex v')
            (errs ++ [(⟨rowIndex, colIndex, fi.header, uerr⟩ : FieldError)])
            hlt' hnpRest' hge'
          rw [this]
          simp

/-- Under the collect policy, while the cap is absent or out of reach, the
column loop runs to completion, appending exactly the static failure list
of its columns. -/
theorem processColumns_collect_cont (typ : StructType) (rc : ReadConfig)
    (params : ExcelUnmarshalParameters) (row : List RawCell) (rowIndex : Nat)
    (colsE : List (Nat × FieldInfo)) (val : Record) (errs : List FieldError)
    (hpol : rc.unmarshalErrorHandling = .collect)
    (hnp : colsPanic typ rc params colsE row = false)
    (hok : rc.maxUnmarshalErrors = 0 ∨
      errs.length + (colFailures typ rc params colsE row rowIndex).length
        < rc.maxUnmarshalErrors) :
    ∃ val', processColumns typ rc params row rowIndex colsE val errs =
      .cont val' (errs ++ colFailures typ rc params colsE row rowIndex) := by
  induction colsE generalizing val errs with
  | nil =>
    refine ⟨val, ?_⟩
    simp [processColumns, colFailures]
  | cons p rest ih =>
    obtain ⟨colIndex, fi⟩ := p
    have hnp1 := hnp
    rw [colsPanic, List.any_cons, Bool.or_eq_false_iff] at hnp1
    obtain ⟨hnpHead, hnpRest⟩ := hnp1
    have hnpRest' : colsPanic typ rc params rest row = false := hnpRest
    cases hu : fi.unmarshalFunc with
    | none =>
      have hcf : colFailures typ rc params ((colIndex, fi) :: rest) row rowIndex =
          colFailures typ rc params rest row rowIndex := by
        simp only [colFailures, List.filterMap_cons, hu]
      rw [hcf] at hok
      simp only [processColumns, hu]
      rw [hcf]
      exact ih val errs hnpRest' hok
    | some routine =>
      rw [hu] at hnpHead
      simp only at hnpHead
      obtain ⟨v', hv'⟩ := processCell_no_panic rc params
        (typ.fields.getD fi.reflectFieldIndex noField) fi.header routine
        (getCellAt row colIndex) (val.getD fi.reflectFieldIndex (.base (.pOther ""))) hnpHead
      simp only [processColumns, hu, hv']
      cases he : cellErr? rc params (typ.fields.getD fi.reflectFieldIndex noField) fi.header
          routine (getCellAt row colIndex) with
      | none =>
        have hcf : colFailures typ rc params ((colIndex, fi) :: rest) row rowIndex =
            colFailures typ rc params rest row rowIndex := by
          simp only [colFailures, List.filterMap_cons, hu, he, Option.map_none']
        rw [he] at hv'
        rw [hcf] at hok
        rw [hcf]
        exact ih _ errs hnpRest' hok
      | some uerr =>
        have hcf : colFailures typ rc params ((colIndex, fi) :: rest) row rowIndex =
            ⟨rowIndex, colIndex, fi.header, uerr⟩ ::
              colFailures typ rc params rest row rowIndex := by
          simp only [colFailures, List.filterMap_cons, hu, he, Option.map_some']
        rw [he] at hv'
        rw [hcf] at hok ⊢
        simp only [hpol]
        have hcap : ¬(0 < rc.maxUnmarshalErrors ∧ rc.maxUnmarshalErrors ≤
            (errs ++ [(⟨rowIndex, colIndex, fi.header, uerr⟩ : FieldError)]).length) := by
          rcases hok with h0 | hlt
          · rintro ⟨h1, _⟩
            omega
          · rintro ⟨_, h2⟩
            simp only [List.length_append, List.length_cons, List.length_nil] at h2 hlt
            omega
        rw [if_neg (by decide : ¬(UnmarshalErrorHandling.collect = .ignore)),
          if_neg (by decide : ¬(UnmarshalErrorHandling.collect = .abort)), if_neg hcap]
        have hok' : rc.maxUnmarshalErrors = 0 ∨
            (errs ++ [(⟨rowIndex, colIndex, fi.header, uerr⟩ : FieldError)]).length +
              (colFailures typ rc params rest row rowIndex).length
              < rc.maxUnmarshalErrors := by
          rcases hok with h0 | hlt
          · exact Or.inl h0
          · refine Or.inr ?_
            simp only [List.length_append, List.length_cons, List.length_nil] at hlt ⊢
            omega
        obtain ⟨val'', hval⟩ := ih (val.set fi.reflectFieldIndex v')
          (errs ++ [(⟨rowIndex, colIndex, fi.header, uerr⟩ : FieldError)]) hnpRest' hok'
        refine ⟨val'', ?_⟩
        rw [hval]
        simp

/-- Row-loop version of `processColumns_collect_halt`: once the failures of
the remaining processed rows reach the cap, the pass halts with the capped
prefix and the cap-reached flag. -/
theorem processRows_collect_halt (typ : StructType) (rc : ReadConfig)
    (params : ExcelUnmarshalParameters) (cols : List FieldInfo) (sheet : Sheet)
    (filters : List (Record → Bool)) (idxs : List Nat) (ts : List Record)
    (errs : List FieldError)
    (hpol : rc.unmarshalErrorHandling = .collect)
    (hlt : errs.length < rc.maxUnmarshalErrors)
    (hnp : rowsPanics typ rc params cols sheet idxs = false)
    (hge : rc.maxUnmarshalErrors ≤
      errs.length + (sheetFailures typ rc params cols sheet idxs).length) :
    processRowsList typ rc params cols sheet filters idxs ts errs =
      .halt (.contentErr
        ⟨(errs ++ sheetFailures typ rc params cols sheet idxs).take rc.maxUnmarshalErrors,
          true⟩) := by
  induction idxs generalizing ts errs with
  | nil =>
    simp only [sheetFailures, List.length_nil, Nat.add_zero] at hge
    omega
  | cons i rest ih =>
    have hnp1 := hnp
    rw [rowsPanics, List.any_cons, Bool.or_eq_false_iff] at hnp1
    obtain ⟨hnpHead, hnpRest⟩ := hnp1
    have hnpRest' : rowsPanics typ rc params cols sheet rest = false := hnpRest
    by_cases hstart : rc.dataStartRowIndex.toNat ≤ i
    · have hnpRow : colsPanic typ rc params cols.enum (sheet.rowAt i) = false := by
        rw [if_pos hstart] at hnpHead
        exact hnpHead
      have hsf : sheetFailures typ rc params cols sheet (i :: rest) =
          colFailures typ rc params cols.enum (sheet.rowAt i) i ++
            sheetFailures typ rc params cols sheet rest := by
        simp only [sheetFailures, if_pos hstart]
      rw [hsf] at hge ⊢
      simp only [processRowsList, if_pos hstart]
      by_cases hrow : rc.maxUnmarshalErrors ≤
          errs.length + (colFailures typ rc params cols.enum (sheet.rowAt i) i).length
      · simp only [processColumns_collect_halt typ rc params (sheet.rowAt i) i cols.enum
          (typ.fields.map fun f => f.type.zeroValue) errs hpol hlt hnpRow hrow]
        have heq : (errs ++ (colFailures typ rc params cols.enum (sheet.rowAt i) i ++
            sheetFailures typ rc params cols sheet rest)).take rc.maxUnmarshalErrors =
            (errs ++ colFailures typ rc params cols.enum (sheet.rowAt i) i).take
              rc.maxUnmarshalErrors := by
          rw [← List.append_assoc]
          exact List.take_append_of_le_length (by simp only [List.length_append]; omega)
        rw [heq]
      · obtain ⟨val', hval⟩ := processColumns_collect_cont typ rc params (sheet.rowAt i) i
          cols.enum (typ.fields.map fun f => f.type.zeroValue) errs hpol hnpRow
          (Or.inr (Nat.lt_of_not_le hrow))
        simp only [hval]
        have hlt' : (errs ++ colFailures typ rc params cols.enum (sheet.rowAt i) i).length
            < rc.maxUnmarshalErrors := by
          simp only [List.length_append]
          exact Nat.lt_of_not_le hrow
        have hge' : rc.maxUnmarshalErrors ≤
            (errs ++ colFailures typ rc params cols.enum (sheet.rowAt i) i).length +
              (sheetFailures typ rc params cols sheet rest).length := by
          simp only [List.length_append] at hge ⊢
          omega
        rw [ih (if filters.all fun fF => fF val' then ts ++ [val'] else ts)
          (errs ++ colFailures typ rc params cols.enum (sheet.rowAt i) i)
          hlt' hnpRest' hge']
        simp
    · have hsf : sheetFailures typ rc params cols sheet (i :: rest) =
          sheetFailures typ rc params cols sheet rest := by
        simp only [sheetFailures, if_neg hstart]
      rw [hsf] at hge ⊢
      simp only [processRowsList, if_neg hstart]
      exact ih ts errs hlt hnpRest' hge

/-- Row-loop version of `processColumns_collect_cont`: while the cap is
absent or out of reach, the pass runs to completion having collected
exactly the static failure list of the processed region. -/
theorem processRows_collect_cont (typ : StructType) (rc : ReadConfig)
    (params : ExcelUnmarshalParameters) (cols : List FieldInfo) (sheet : Sheet)
    (filters : List (Record → Bool)) (idxs : List Nat) (ts : List Record)
    (errs : List FieldError)
    (hpol : rc.unmarshalErrorHandling = .collect)
    (hnp : rowsPanics typ rc params cols sheet idxs = false)
    (hok : rc.maxUnmarshalErrors = 0 ∨
      errs.length + (sheetFailures typ rc params cols sheet idxs).length
        < rc.maxUnmarshalErrors) :
    ∃ ts', processRowsList typ rc params cols sheet filters idxs ts errs =
      .done ts' (errs ++ sheetFailures typ rc params cols sheet idxs) := by
  induction idxs generalizing ts errs with
  | nil =>
    refine ⟨ts, ?_⟩
    simp [processRowsList, sheetFailures]
  | cons i rest ih =>
    have hnp1 := hnp
    rw [rowsPanics, List.any_cons, Bool.or_eq_false_iff] at hnp1
    obtain ⟨hnpHead, hnpRest⟩ := hnp1
    have hnpRest' : rowsPanics typ rc params cols sheet rest = false := hnpRest
    by_cases hstart : rc.dataStartRowIndex.toNat ≤ i
    · have hnpRow : colsPanic typ rc params cols.enum (sheet.rowAt i) = false := by
        rw [if_pos hstart] at hnpHead
        exact hnpHead
      have hsf : sheetFailures typ rc params cols sheet (i :: rest) =
          colFailures typ rc params cols.enum (sheet.rowAt i) i ++
            sheetFailures typ rc params cols sheet rest := by
        simp only [sheetFailures, if_pos hstart]
      rw [hsf] at hok ⊢
      simp only [processRowsList, if_pos hstart]
      have hokRow : rc.maxUnmarshalErrors = 0 ∨
          errs.length + (colFailures typ rc params cols.enum (sheet.rowAt i) i).length
            < rc.maxUnmarshalErrors := by
        rcases hok with h0 | hlt
        · exact Or.inl h0
        · refine Or.inr ?_
          simp only [List.length_append] at hlt
          omega
      obtain ⟨val', hval⟩ := processColumns_collect_cont typ rc params (sheet.rowAt i) i
        cols.enum (typ.fields.map fun f => f.type.zeroValue) errs hpol hnpRow hokRow
      simp only [hval]
      have hok' : rc.maxUnmarshalErrors = 0 ∨
          (errs ++ colFailures typ rc params cols.enum (sheet.rowAt i) i).length +
            (sheetFailures typ rc params cols sheet rest).length
            < rc.maxUnmarshalErrors := by
        rcases hok with h0 | hlt
        · exact Or.inl h0
        · refine Or.inr ?_
          simp only [List.length_append] at hlt ⊢
          omega
      obtain ⟨ts', hts⟩ := ih (if filters.all fun fF => fF val' then ts ++ [val'] else ts)
        (errs ++ colFailures typ rc params cols.enum (sheet.rowAt i) i) hnpRest' hok'
      refine ⟨ts', ?_⟩
      rw [hts]
      simp
    · have hsf : sheetFailures typ rc params cols sheet (i :: rest) =
          sheetFailures typ rc params cols sheet rest := by
        simp only [sheetFailures, if_neg hstart]
      rw [hsf] at hok ⊢
      simp only [processRowsList, if_neg hstart]
      exact ih ts errs hnpRest' hok

/-- **C4.** Under the collect policy with a configured cap `N > 0`, when
more than `N` cells fail conversion (and no cell panics), the call returns
an aggregate `ContentError` whose `LimitReached` flag is true, containing
exactly the first `N` field errors in row-then-column encounter order
(`allFailures` lists every failure in exactly that order); the second
conjunct records that the returned list has exactly `N` entries. -/
theorem collect_cap_behavior (typ : StructType) (rc : ReadConfig) (f : XFile)
    (filters : List (Record → Bool)) (cols : List FieldInfo)
    (hpol : rc.unmarshalErrorHandling = .collect)
    (hN : 0 < rc.maxUnmarshalErrors)
    (h1 : ¬(rc.sheetIndex < 0 ∨ (f.sheets.length : Int) - 1 < rc.sheetIndex))
    (h2 : ¬(rc.headerRowIndex < 0 ∨
      ((f.sheets.getD rc.sheetIndex.toNat noSheet).maxRow : Int) - 1 < rc.headerRowIndex))
    (h3 : ¬(rc.dataStartRowIndex < 0 ∨
      ((f.sheets.getD rc.sheetIndex.toNat noSheet).maxRow : Int) - 1
        < rc.dataStartRowIndex))
    (hbind : bindColumns typ rc
      (readStrings (f.sheets.getD rc.sheetIndex.toNat noSheet).maxCol
        ((f.sheets.getD rc.sheetIndex.toNat noSheet).rowAt rc.headerRowIndex.toNat)) =
      .ok cols)
    (hnp : sheetPanics typ rc ⟨rc.trimSpace, f.date1904, rc.fallbackDateFormats⟩ cols
      (f.sheets.getD rc.sheetIndex.toNat noSheet) = false)
    (hmany : rc.maxUnmarshalErrors <
      (allFailures typ rc ⟨rc.trimSpace, f.date1904, rc.fallbackDateFormats⟩ cols
        (f.sheets.getD rc.sheetIndex.toNat noSheet)).length) :
    readBinary typ rc f filters =
      .error (.contentErr
        ⟨(allFailures typ rc ⟨rc.trimSpace, f.date1904, rc.fallbackDateFormats⟩ cols
            (f.sheets.getD rc.sheetIndex.toNat noSheet)).take rc.maxUnmarshalErrors,
          true⟩) ∧
    ((allFailures typ rc ⟨rc.trimSpace, f.date1904, rc.fallbackDateFormats⟩ cols
        (f.sheets.getD rc.sheetIndex.toNat noSheet)).take rc.maxUnmarshalErrors).length =
      rc.maxUnmarshalErrors := by
  have hrows := processRows_collect_halt typ rc
    ⟨rc.trimSpace, f.date1904, rc.fallbackDateFormats⟩ cols
    (f.sheets.getD rc.sheetIndex.toNat noSheet) filters
    (List.range (f.sheets.getD rc.sheetIndex.toNat noSheet).maxRow) [] []
    hpol (by simpa using hN) hnp
    (by
      simp only [List.length_nil, Nat.zero_add]
      exact Nat.le_of_lt hmany)
  constructor
  · simp only [readBinary, if_neg h1, if_neg h2, if_neg h3, hbind]
    simp only [allFailures] at hrows ⊢
    simp only [hrows, List.nil_append]
  · simp only [List.length_take]
    omega

/-- Closed instance of `collect_cap_behavior`: three malformed integer
cells under a cap of 2 — the first two errors are returned, in encounter
order, with the cap-reached flag. -/
theorem collect_cap_behavior_witness :
    readBinary tyInt rcCollect2 fileBad3 [] =
      .error (.contentErr
        ⟨[⟨1, 0, "a", .parse .kInt "x"⟩, ⟨2, 0, "a", .parse .kInt "y"⟩], true⟩) :=
  (collect_cap_behavior tyInt rcCollect2 fileBad3 [] [⟨0, "a", some (.builtin .kInt)⟩]
    rfl (by decide) (by decide) (by decide) (by decide) (by decide) (by decide)
    (by decide)).1

/-- **C5.** Under the collect policy, when the pass finishes without
reaching the cap (no cap, or fewer failures than the cap; no cell panics)
and at least one field error was collected, the call returns the aggregate
error with the cap-reached flag false and no record sequence — the
`Except` result carries either rows or an error, never both. -/
theorem collect_aggregate_without_cap (typ : StructType) (rc : ReadConfig) (f : XFile)
    (filters : List (Record → Bool)) (cols : List FieldInfo)
    (hpol : rc.unmarshalErrorHandling = .collect)
    (hok : rc.maxUnmarshalErrors = 0 ∨
      (allFailures typ rc ⟨rc.trimSpace, f.date1904, rc.fallbackDateFormats⟩ cols
        (f.sheets.getD rc.sheetIndex.toNat noSheet)).length < rc.maxUnmarshalErrors)
    (h1 : ¬(rc.sheetIndex < 0 ∨ (f.sheets.length : Int) - 1 < rc.sheetIndex))
    (h2 : ¬(rc.headerRowIndex < 0 ∨
      ((f.sheets.getD rc.sheetIndex.toNat noSheet).maxRow : Int) - 1 < rc.headerRowIndex))
    (h3 : ¬(rc.dataStartRowIndex < 0 ∨
      ((f.sheets.getD rc.sheetIndex.toNat noSheet).maxRow : Int) - 1
        < rc.dataStartRowIndex))
    (hbind : bindColumns typ rc
      (readStrings (f.sheets.getD rc.sheetIndex.toNat noSheet).maxCol
        ((f.sheets.getD rc.sheetIndex.toNat noSheet).rowAt rc.headerRowIndex.toNat)) =
      .ok cols)
    (hnp : sheetPanics typ rc ⟨rc.trimSpace, f.date1904, rc.fallbackDateFormats⟩ cols
      (f.sheets.getD rc.sheetIndex.toNat noSheet) = false)
    (hne : allFailures typ rc ⟨rc.trimSpace, f.date1904, rc.fallbackDateFormats⟩ cols
      (f.sheets.getD rc.sheetIndex.toNat noSheet) ≠ []) :
    readBinary typ rc f filters =
      .error (.contentErr
        ⟨allFailures typ rc ⟨rc.trimSpace, f.date1904, rc.fallbackDateFormats⟩ cols
          (f.sheets.getD rc.sheetIndex.toNat noSheet), false⟩) := by
  obtain ⟨ts', hdone⟩ := processRows_collect_cont typ rc
    ⟨rc.trimSpace, f.date1904, rc.fallbackDateFormats⟩ cols
    (f.sheets.getD rc.sheetIndex.toNat noSheet) filters
    (List.range (f.sheets.getD rc.sheetIndex.toNat noSheet).maxRow) [] []
    hpol hnp
    (by
      simp only [List.length_nil, Nat.zero_add]
      exact hok)
  simp only [readBinary, if_neg h1, if_neg h2, if_neg h3, hbind]
  simp only [allFailures] at hdone hne ⊢
  simp only [hdone, List.nil_append]
  rw [if_pos (List.length_pos.mpr hne)]

/-- Closed instance of `collect_aggregate_without_cap`: three malformed
integer cells with no cap configured — all three errors come back in one
aggregate, the cap-reached flag clear, and no records. -/
theorem collect_aggregate_without_cap_witness :
    readBinary tyInt rcCollect0 fileBad3 [] =
      .error (.contentErr
        ⟨[⟨1, 0, "a", .parse .kInt "x"⟩, ⟨2, 0, "a", .parse .kInt "y"⟩,
          ⟨3, 0, "a", .parse .kInt "z"⟩], false⟩) :=
  collect_aggregate_without_cap tyInt rcCollect0 fileBad3 []
    [⟨0, "a", some (.builtin .kInt)⟩] rfl (by decide) (by decide) (by decide) (by decide)
    (by decide) (by decide) (by decide)

theorem unmarshalFunc_supported (t : FieldType) (h : supportedType t = true) :
    t.unmarshalFunc true = some (routineFor t) := by
  cases t with
  | fBase k => cases k <;> rfl
  | fPtr k => cases k <;> rfl
  | fTime => rfl
  | fPtrTime => rfl
  | fUnsup => cases h
  | fPtrUnsup => cases h

theorem headerData_aux (wc : WriteConfig) :
    ∀ fs : List Field, (∀ f ∈ fs, f.exported = true ∧ f.tag.isSome = true) →
      headerData ⟨fs⟩ wc = fs.map fun f => .vStr (f.tag.getD "") := by
  intro fs
  induction fs with
  | nil => intro _; rfl
  | cons f fs ih =>
    intro h
    obtain ⟨hexp, htag⟩ := h f (by simp)
    obtain ⟨t, ht⟩ := Option.isSome_iff_exists.mp htag
    have htail := ih fun g hg => h g (by simp [hg])
    simp only [headerData, List.filterMap_cons, List.map_cons, hexp, ht] at htail ⊢
    simp only [Bool.true_eq_false, if_false, Option.getD_some]
    exact congrArg _ htail

theorem headerData_all_tagged (typ : StructType) (wc : WriteConfig)
    (h : ∀ f ∈ typ.fields, f.exported = true ∧ f.tag.isSome = true) :
    headerData typ wc = typ.fields.map fun f => .vStr (f.tag.getD "") := by
  obtain ⟨fs⟩ := typ
  exact headerData_aux wc fs h

theorem projectFields_data (wc : WriteConfig) (rowNum : Nat) (l : List (Field × Value))
    (data : List EncVal) (vals : List DataValidation)
    (hexp : ∀ p ∈ l, p.1.exported = true) (hsk : wc.skipNoTag = false) :
    (projectFields wc rowNum l data vals).1 =
      data ++ l.map fun p => encodeFieldValue wc (p.1.tag.getD "") p.2 := by
  induction l generalizing data vals with
  | nil => simp [projectFields]
  | cons p rest ih =>
    obtain ⟨fe, v⟩ := p
    have he : fe.exported = true := hexp (fe, v) (by simp)
    have hnotskip : ¬(fe.tag = none ∧ wc.skipNoTag = true) := by
      rintro ⟨_, hs⟩
      rw [hsk] at hs
      cases hs
    simp only [projectFields, he, Bool.true_eq_false, if_false, if_neg hnotskip]
    rw [ih _ _ fun q hq => hexp q (by simp [hq])]
    simp

theorem write0_fold_rows (typ : StructType) (wc : WriteConfig) (l : List (Nat × Record))
    (sheet : Sheet) :
    (l.foldl (fun sheet p =>
      writeRow { sheet with validations :=
          sheet.validations ++ (projectFields wc (p.1 + 1) (typ.fields.zip p.2) [] []).2 }
        (projectFields wc (p.1 + 1) (typ.fields.zip p.2) [] []).1 wc) sheet).rows =
      sheet.rows ++ l.map fun p =>
        ((projectFields wc (p.1 + 1) (typ.fields.zip p.2) [] []).1).map (writeCell wc) := by
  induction l generalizing sheet with
  | nil => simp
  | cons p rest ih =>
    simp only [List.foldl_cons, List.map_cons]
    rw [ih]
    simp [writeRow]

theorem write0_fold_name (typ : StructType) (wc : WriteConfig) (l : List (Nat × Record))
    (sheet : Sheet) :
    (l.foldl (fun sheet p =>
      writeRow { sheet with validations :=
          sheet.validations ++ (projectFields wc (p.1 + 1) (typ.fields.zip p.2) [] []).2 }
        (projectFields wc (p.1 + 1) (typ.fields.zip p.2) [] []).1 wc) sheet).name =
      sheet.name := by
  induction l generalizing sheet with
  | nil => rfl
  | cons p rest ih =>
    simp only [List.foldl_cons]
    rw [ih]
    rfl

theorem enumFrom_map_snd_comp {α β : Type} (f : α → β) :
    ∀ (l : List α) (k : Nat), (List.enumFrom k l).map (fun p => f p.2) = l.map f := by
  intro l
  induction l with
  | nil => intro k; rfl
  | cons a l ih =>
    intro k
    simp only [List.enumFrom, List.map_cons]
    rw [ih]

/-- The document `write0` builds for a nonempty record slice of a fully
exported, fully tagged type: one sheet named `Sheet1` whose rows are the
header row followed by one data row per record, in order. -/
theorem newFileFromSlice_rows (typ : StructType) (ts : List Record)
    (hne : ts ≠ [])
    (hexp : ∀ f ∈ typ.fields, f.exported = true ∧ f.tag.isSome = true) :
    (newFileFromSlice typ ts id).date1904 = false ∧
    (newFileFromSlice typ ts id).sheets.length = 1 ∧
    ((newFileFromSlice typ ts id).sheets.getD 0 noSheet).name = "Sheet1" ∧
    ((newFileFromSlice typ ts id).sheets.getD 0 noSheet).rows =
      headerRowOf typ :: ts.map (dataRowOf typ defaultWriteConfig) := by
  have hlen : 0 < ts.length := List.length_pos.mpr hne
  refine ⟨rfl, ?_, ?_, ?_⟩
  · simp [newFileFromSlice, write0]
  · simp only [newFileFromSlice, write0, id_eq, if_pos hlen, List.nil_append,
      List.getD_cons_zero]
    rw [write0_fold_name]
    rfl
  · simp only [newFileFromSlice, write0, id_eq, if_pos hlen, List.nil_append,
      List.getD_cons_zero]
    rw [write0_fold_rows]
    simp only [writeRow, List.nil_append, List.singleton_append]
    congr 1
    · -- header row
      rw [headerData_all_tagged typ defaultWriteConfig hexp, writeCell_default,
        List.map_map]
      rfl
    · -- data rows
      have hrow : ∀ p ∈ ts.enum,
          ((projectFields defaultWriteConfig (p.1 + 1) (typ.fields.zip p.2) [] []).1).map
            (writeCell defaultWriteConfig) = dataRowOf typ defaultWriteConfig p.2 := by
        intro p _
        rw [projectFields_data defaultWriteConfig (p.1 + 1) (typ.fields.zip p.2) [] []
          (fun q hq => (hexp q.1 (List.of_mem_zip hq).1).1) rfl]
        simp only [List.nil_append, writeCell_default]
        simp [dataRowOf, encCell, List.map_map, writeCell_default]
      rw [List.map_congr_left hrow]
      exact enumFrom_map_snd_comp (dataRowOf typ defaultWriteConfig) ts 0

theorem foldr_max_len_le (n : Nat) : ∀ rows : List (List RawCell),
    (∀ r ∈ rows, r.length = n) →
    rows.foldr (fun r acc => max r.length acc) 0 ≤ n := by
  intro rows
  induction rows with
  | nil => intro _; exact Nat.zero_le n
  | cons r rest ih =>
    intro h
    simp only [List.foldr_cons]
    have h1 : r.length = n := h r (by simp)
    have h2 := ih fun q hq => h q (by simp [hq])
    omega

/-- A sheet whose rows all have length `n` (and has at least one row) has
`MaxCol = n`. -/
theorem maxCol_const (s : Sheet) (r0 : List RawCell)
    (rows : List (List RawCell)) (n : Nat) (hr : s.rows = r0 :: rows)
    (h0 : r0.length = n) (h : ∀ r ∈ rows, r.length = n) :
    s.maxCol = n := by
  unfold Sheet.maxCol
  rw [hr]
  simp only [List.foldr_cons]
  have := foldr_max_len_le n rows h
  omega

theorem readStrings_full (row : List RawCell) :
    readStrings row.length row = row.map RawCell.value := by
  refine List.ext_getElem (by simp [readStrings]) ?_
  intro i h1 h2
  simp only [readStrings, List.getElem_map, List.getElem_range, getCellAt]
  rw [List.getD_eq_getElem]

theorem tagLookup_acc_notMem (k : String) : ∀ (pairs : List (String × Nat)) (acc : Option Nat),
    (∀ p ∈ pairs, p.1 ≠ k) →
    pairs.foldl (fun acc p => if p.1 == k then some p.2 else acc) acc = acc := by
  intro pairs
  induction pairs with
  | nil => intro _ _; rfl
  | cons q rest ih =>
    intro acc h
    have hq : (q.1 == k) = false := beq_eq_false_iff_ne.mpr (h q (by simp))
    simp only [List.foldl_cons, hq, Bool.false_eq_true, if_false]
    exact ih acc fun p hp => h p (by simp [hp])

theorem tagLookup_mem : ∀ (pairs : List (String × Nat)) (k : String) (v : Nat)
    (acc : Option Nat), (k, v) ∈ pairs → (pairs.map Prod.fst).Nodup →
    pairs.foldl (fun acc p => if p.1 == k then some p.2 else acc) acc = some v := by
  intro pairs
  induction pairs with
  | nil => intro k v acc h _; cases h
  | cons q rest ih =>
    intro k v acc hmem hnd
    rcases List.mem_cons.mp hmem with rfl | hmem'
    · simp only [List.foldl_cons, beq_self_eq_true, if_true]
      refine tagLookup_acc_notMem k rest (some v) fun p hp hpk => ?_
      exact (List.nodup_cons.mp hnd).1
        (by simpa [hpk] using List.mem_map_of_mem Prod.fst hp)
    · have hk : k ∈ rest.map Prod.fst := by
        simpa using List.mem_map_of_mem Prod.fst hmem'
      have hq : (q.1 == k) = false := by
        refine beq_eq_false_iff_ne.mpr fun hqk => ?_
        exact (List.nodup_cons.mp hnd).1 (hqk ▸ hk)
      simp only [List.foldl_cons, hq, Bool.false_eq_true, if_false]
      exact ih k v acc hmem' (List.nodup_cons.mp hnd).2

theorem tagToFieldPairs_keys : ∀ (fs : List Field) (j : Nat),
    ((List.enumFrom j fs).filterMap fun p => p.2.tag.map fun t => (t, p.1)).map Prod.fst =
      fs.filterMap Field.tag := by
  intro fs
  induction fs with
  | nil => intro _; rfl
  | cons f fs ih =>
    intro j
    cases ht : f.tag with
    | none =>
      simp only [List.enumFrom, List.filterMap_cons, ht, Option.map_none']
      exact ih (j + 1)
    | some t =>
      simp only [List.enumFrom, List.filterMap_cons, ht, Option.map_some', List.map_cons]
      exact congrArg _ (ih (j + 1))

/-- For a type with pairwise-distinct tags, the tag map sends the tag of
field `j` to `j`. -/
theorem tagLookup_self (fields : List Field) (j : Nat) (f : Field) (t : String)
    (hj : fields[j]? = some f) (ht : f.tag = some t)
    (hnd : (fields.filterMap Field.tag).Nodup) :
    tagLookup (tagToFieldPairs fields) t = some j := by
  have hmem : (t, j) ∈ tagToFieldPairs fields := by
    refine List.mem_filterMap.mpr ⟨(j, f), ?_, by simp [ht]⟩
    exact List.mk_mem_enum_iff_getElem?.mpr (by simp [hj])
  have hkeys : ((tagToFieldPairs fields).map Prod.fst).Nodup := by
    unfold tagToFieldPairs
    rw [show fields.enum = List.enumFrom 0 fields from rfl, tagToFieldPairs_keys]
    exact hnd
  exact tagLookup_mem (tagToFieldPairs fields) t j none hmem hkeys

theorem bindColumns_schema_aux (typ : StructType)
    (hx : ∀ f ∈ typ.fields,
      f.exported = true ∧ f.tag.isSome = true ∧ supportedType f.type = true)
    (hnd : (typ.fields.filterMap Field.tag).Nodup) :
    ∀ (fs : List Field) (j : Nat), typ.fields.drop j = fs →
    bindColumnsAux typ defaultReadConfig j (fs.map fun f => f.tag.getD "") =
      .ok ((List.enumFrom j fs).map fun p =>
        ⟨p.1, p.2.tag.getD "", some (routineFor p.2.type)⟩) := by
  intro fs
  induction fs with
  | nil => intro j _; rfl
  | cons f fs ih =>
    intro j hdrop
    have hget : typ.fields[j]? = some f := by
      have h0 : (typ.fields.drop j)[0]? = some f := by rw [hdrop]; simp
      rw [List.getElem?_drop] at h0
      simpa using h0
    have hmemf : f ∈ typ.fields := List.getElem?_mem hget
    obtain ⟨hexp, htag, hsup⟩ := hx f hmemf
    obtain ⟨t, ht⟩ := Option.isSome_iff_exists.mp htag
    have hlookup : tagLookup (tagToFieldPairs typ.fields) t = some j :=
      tagLookup_self typ.fields j f t hget ht hnd
    have hgetD : typ.fields.getD j noField = f := by
      simp [List.getD, hget]
    have hbindOne : bindOne typ defaultReadConfig j (f.tag.getD "") =
        .ok ⟨j, f.tag.getD "", some (routineFor f.type)⟩ := by
      rw [ht, Option.getD_some]
      simp only [bindOne, hlookup, hgetD, hexp, unmarshalFunc_supported f.type hsup]
    have hdrop' : typ.fields.drop (j + 1) = fs := by
      rw [← List.tail_drop, hdrop]
      rfl
    simp only [List.map_cons, bindColumnsAux, hbindOne, ih (j + 1) hdrop', List.enumFrom,
      List.map_cons]
    rfl

/-- Binding the header row of a fully tagged, exported, supported type
against the type itself binds every column to its own field and routine. -/
theorem bindColumns_schema (typ : StructType) (hscm : schemaOk typ) :
    bindColumns typ defaultReadConfig (typ.fields.map fun f => f.tag.getD "") =
      .ok (colsOf typ) := by
  have hx : ∀ f ∈ typ.fields,
      f.exported = true ∧ f.tag.isSome = true ∧ supportedType f.type = true := hscm.1
  exact bindColumns_schema_aux typ hx hscm.2 typ.fields 0 rfl

theorem take_succ_set {α : Type} (l : List α) (j : Nat) (v : α) (h : j < l.length) :
    (l.set j v).take (j + 1) = l.take j ++ [v] := by
  induction l generalizing j with
  | nil => cases h
  | cons a l ih =>
    cases j with
    | zero => simp
    | succ j =>
      simp only [List.set_cons_succ, List.take_succ_cons, List.cons_append]
      exact congrArg _ (ih j (by simpa using h))

theorem setFrom_eq : ∀ (vs : List Value) (j : Nat) (val : Record),
    j + vs.length = val.length → setFrom val j vs = val.take j ++ vs := by
  intro vs
  induction vs with
  | nil =>
    intro j val h
    simp only [List.length_nil, Nat.add_zero] at h
    simp only [setFrom, List.append_nil]
    rw [List.take_of_length_le (by omega)]
  | cons v vs ih =>
    intro j val h
    have hj : j < val.length := by
      simp only [List.length_cons] at h
      omega
    have hlen : j + 1 + vs.length = (val.set j v).length := by
      simp only [List.length_set, List.length_cons] at h ⊢
      omega
    rw [setFrom, ih (j + 1) (val.set j v) hlen]
    rw [show (val.set j v).take (j + 1) = val.take j ++ [v] from take_succ_set val j v hj]
    simp

theorem crt_bool (nm : String) (tg : Option String) (header : String) (b : Bool) :
    cellAction defaultReadConfig paramsDefault ⟨nm, tg, true, .fBase .kBool⟩ header
      (routineFor (.fBase .kBool))
      (encCell defaultWriteConfig ⟨nm, tg, true, .fBase .kBool⟩ (.base (.pB b))) =
      .setTo (.base (.pB b)) none := by
  cases b <;> rfl

theorem crt_int (nm : String) (tg : Option String) (header : String) (n : Int) :
    cellAction defaultReadConfig paramsDefault ⟨nm, tg, true, .fBase .kInt⟩ header
      (routineFor (.fBase .kInt))
      (encCell defaultWriteConfig ⟨nm, tg, true, .fBase .kInt⟩ (.base (.pI n))) =
      .setTo (.base (.pI n)) none := rfl

theorem crt_uint (nm : String) (tg : Option String) (header : String) (n : Nat) :
    cellAction defaultReadConfig paramsDefault ⟨nm, tg, true, .fBase .kUInt⟩ header
      (routineFor (.fBase .kUInt))
      (encCell defaultWriteConfig ⟨nm, tg, true, .fBase .kUInt⟩ (.base (.pU n))) =
      .setTo (.base (.pU n)) none := by
  simp [cellAction, encCell, encodeFieldValue, encodePrim, primEnc, writeCell, setValueCell,
    applyRoutineAct, cellParsePrim, RawCell.parseUint?, routineFor, defaultReadConfig,
    defaultWriteConfig, paramsDefault, dropListLookup, isPtrField, Int.natCast_nonneg]

theorem crt_float (nm : String) (tg : Option String) (header : String) (d : Dec) :
    cellAction defaultReadConfig paramsDefault ⟨nm, tg, true, .fBase .kFloat⟩ header
      (routineFor (.fBase .kFloat))
      (encCell defaultWriteConfig ⟨nm, tg, true, .fBase .kFloat⟩ (.base (.pF d))) =
      .setTo (.base (.pF d)) none := rfl

theorem crt_string (nm : String) (tg : Option String) (header : String) (s : String) :
    cellAction defaultReadConfig paramsDefault ⟨nm, tg, true, .fBase .kString⟩ header
      (routineFor (.fBase .kString))
      (encCell defaultWriteConfig ⟨nm, tg, true, .fBase .kString⟩ (.base (.pS s))) =
      .setTo (.base (.pS s)) none := rfl

theorem crt_time (nm : String) (tg : Option String) (header : String) (d : Dec) :
    cellAction defaultReadConfig paramsDefault ⟨nm, tg, true, .fTime⟩ header
      (routineFor .fTime)
      (encCell defaultWriteConfig ⟨nm, tg, true, .fTime⟩ (.base (.pT d))) =
      .setTo (.base (.pT d)) none := rfl

theorem crt_pbool (nm : String) (tg : Option String) (header : String) (b : Bool) :
    cellAction defaultReadConfig paramsDefault ⟨nm, tg, true, .fPtr .kBool⟩ header
      (routineFor (.fPtr .kBool))
      (encCell defaultWriteConfig ⟨nm, tg, true, .fPtr .kBool⟩ (.ptrV (some (.pB b)))) =
      .setTo (.ptrV (some (.pB b))) none := by
  cases b <;> rfl

theorem crt_pint (nm : String) (tg : Option String) (header : String) (n : Int) :
    cellAction defaultReadConfig paramsDefault ⟨nm, tg, true, .fPtr .kInt⟩ header
      (routineFor (.fPtr .kInt))
      (encCell defaultWriteConfig ⟨nm, tg, true, .fPtr .kInt⟩ (.ptrV (some (.pI n)))) =
      .setTo (.ptrV (some (.pI n))) none := rfl

theorem crt_puint (nm : String) (tg : Option String) (header : String) (n : Nat) :
    cellAction defaultReadConfig paramsDefault ⟨nm, tg, true, .fPtr .kUInt⟩ header
      (routineFor (.fPtr .kUInt))
      (encCell defaultWriteConfig ⟨nm, tg, true, .fPtr .kUInt⟩ (.ptrV (some (.pU n)))) =
      .setTo (.ptrV (some (.pU n))) none := by
  simp [cellAction, encCell, encodeFieldValue, encodePrim, primEnc, writeCell, setValueCell,
    applyRoutineAct, cellParsePrim, RawCell.parseUint?, routineFor, defaultReadConfig,
    defaultWriteConfig, paramsDefault, dropListLookup, isPtrField, Int.natCast_nonneg]

theorem crt_pfloat (nm : String) (tg : Option String) (header : String) (d : Dec) :
    cellAction defaultReadConfig paramsDefault ⟨nm, tg, true, .fPtr .kFloat⟩ header
      (routineFor (.fPtr .kFloat))
      (encCell defaultWriteConfig ⟨nm, tg, true, .fPtr .kFloat⟩ (.ptrV (some (.pF d)))) =
      .setTo (.ptrV (some (.pF d))) none := rfl

theorem crt_pstring (nm : String) (tg : Option String) (header : String) (s : String) :
    cellAction defaultReadConfig paramsDefault ⟨nm, tg, true, .fPtr .kString⟩ header
      (routineFor (.fPtr .kString))
      (encCell defaultWriteConfig ⟨nm, tg, true, .fPtr .kString⟩ (.ptrV (some (.pS s)))) =
      .setTo (.ptrV (some (.pS s))) none := rfl

theorem crt_ptime (nm : String) (tg : Option String) (header : String) (d : Dec) :
    cellAction defaultReadConfig paramsDefault ⟨nm, tg, true, .fPtrTime⟩ header
      (routineFor .fPtrTime)
      (encCell defaultWriteConfig ⟨nm, tg, true, .fPtrTime⟩ (.ptrV (some (.pT d)))) =
      .setTo (.ptrV (some (.pT d))) none := rfl

/-- Decoding the cell `write0` emitted for a supported, exported,
well-typed field value under matching default configurations recovers
exactly that value, with no error. -/
theorem cell_roundtrip_mk (nm : String) (tg : Option String) (header : String)
    (ft : FieldType) (v : Value) (hfit : fitsStrict ft v = true) :
    cellAction defaultReadConfig paramsDefault ⟨nm, tg, true, ft⟩ header
      (routineFor ft) (encCell defaultWriteConfig ⟨nm, tg, true, ft⟩ v) =
      .setTo v none := by
  cases ft with
  | fBase k =>
    cases k <;>
      rcases v with ⟨b | n | n | d | s | d | r⟩ | ⟨_ | ⟨b | n | n | d | s | d | r⟩⟩ <;>
      simp only [fitsStrict, Bool.false_eq_true] at hfit
    · exact crt_bool nm tg header b
    · exact crt_int nm tg header n
    · exact crt_uint nm tg header n
    · exact crt_float nm tg header d
    · exact crt_string nm tg header s
  | fPtr k =>
    cases k <;>
      rcases v with ⟨b | n | n | d | s | d | r⟩ | ⟨_ | ⟨b | n | n | d | s | d | r⟩⟩ <;>
      simp only [fitsStrict, Bool.false_eq_true] at hfit
    · exact crt_pbool nm tg header b
    · exact crt_pint nm tg header n
    · exact crt_puint nm tg header n
    · exact crt_pfloat nm tg header d
    · exact crt_pstring nm tg header s
  | fTime =>
    rcases v with ⟨b | n | n | d | s | d | r⟩ | ⟨_ | ⟨b | n | n | d | s | d | r⟩⟩ <;>
      simp only [fitsStrict, Bool.false_eq_true] at hfit
    exact crt_time nm tg header d
  | fPtrTime =>
    rcases v with ⟨b | n | n | d | s | d | r⟩ | ⟨_ | ⟨b | n | n | d | s | d | r⟩⟩ <;>
      simp only [fitsStrict, Bool.false_eq_true] at hfit
    exact crt_ptime nm tg header d
  | fUnsup =>
    rcases v with ⟨b | n | n | d | s | d | r⟩ | ⟨_ | ⟨b | n | n | d | s | d | r⟩⟩ <;>
      simp only [fitsStrict, Bool.false_eq_true] at hfit
  | fPtrUnsup =>
    rcases v with ⟨b | n | n | d | s | d | r⟩ | ⟨_ | ⟨b | n | n | d | s | d | r⟩⟩ <;>
      simp only [fitsStrict, Bool.false_eq_true] at hfit

/-- `cell_roundtrip_mk` packaged for an arbitrary exported field. -/
theorem cell_roundtrip (fe : Field) (header : String) (v : Value)
    (hexp : fe.exported = true) (hfit : fitsStrict fe.type v = true) :
    cellAction defaultReadConfig paramsDefault fe header (routineFor fe.type)
      (encCell defaultWriteConfig fe v) = .setTo v none := by
  obtain ⟨nm, tg, ex, ft⟩ := fe
  cases ex with
  | false => simp at hexp
  | true => exact cell_roundtrip_mk nm tg header ft v hfit

theorem colsOf_enum (typ : StructType) :
    (colsOf typ).enum = typ.fields.enum.map fun p =>
      (p.1, (⟨p.1, p.2.tag.getD "", some (routineFor p.2.type)⟩ : FieldInfo)) := by
  refine List.ext_getElem (by simp [colsOf]) ?_
  intro i h1 h2
  simp [colsOf, List.getElem_enum, List.getElem_map]

theorem processColumns_roundtrip_aux (typ : StructType) (t : Record) (rowIndex : Nat)
    (errs : List FieldError)
    (hx : ∀ f ∈ typ.fields, f.exported = true)
    (hfits : ∀ p ∈ typ.fields.zip t, fitsStrict p.1.type p.2 = true)
    (hlen : t.length = typ.fields.length) :
    ∀ (fs : List Field) (vs : List Value) (j : Nat) (val : Record),
    typ.fields.drop j = fs → t.drop j = vs →
    processColumns typ defaultReadConfig paramsDefault
      (dataRowOf typ defaultWriteConfig t) rowIndex
      ((List.enumFrom j fs).map fun p =>
        (p.1, (⟨p.1, p.2.tag.getD "", some (routineFor p.2.type)⟩ : FieldInfo))) val errs =
      .cont (setFrom val j vs) errs := by
  intro fs
  induction fs with
  | nil =>
    intro vs j val hdf hdt
    have hjf : typ.fields.length ≤ j := by
      have := congrArg List.length hdf
      simp only [List.length_drop, List.length_nil] at this
      omega
    have hvs : vs = [] := by
      rw [← hdt]
      refine List.drop_eq_nil_iff.mpr ?_
      omega
    subst hvs
    simp [processColumns, setFrom, List.enumFrom]
  | cons f fs' ih =>
    intro vs j val hdf hdt
    have hjlt : j < typ.fields.length := by
      have := congrArg List.length hdf
      simp only [List.length_drop, List.length_cons] at this
      omega
    have hgetf : typ.fields[j]? = some f := by
      have h0 : (typ.fields.drop j)[0]? = some f := by rw [hdf]; simp
      rw [List.getElem?_drop] at h0
      simpa using h0
    have hjlt' : j < t.length := by omega
    rcases hvs : t.drop j with _ | ⟨v, vs'⟩
    · exfalso
      have := congrArg List.length hvs
      simp only [List.length_drop, List.length_nil] at this
      omega
    rw [hvs] at hdt
    subst hdt
    have hgetv : t[j]? = some v := by
      have h0 : (t.drop j)[0]? = some v := by rw [hvs]; simp
      rw [List.getElem?_drop] at h0
      simpa using h0
    have hmemf : f ∈ typ.fields := List.getElem?_mem hgetf
    have hexp := hx f hmemf
    have hf' : typ.fields[j] = f := by
      have h := List.getElem?_eq_getElem hjlt
      rw [hgetf] at h
      exact (Option.some.inj h).symm
    have hv' : t[j] = v := by
      have h := List.getElem?_eq_getElem hjlt'
      rw [hgetv] at h
      exact (Option.some.inj h).symm
    have hjz : j < (typ.fields.zip t).length := by
      simp only [List.length_zip]
      omega
    have hzmem : (f, v) ∈ typ.fields.zip t := by
      have hz : (typ.fields.zip t)[j] = (f, v) := by
        rw [List.getElem_zip, hf', hv']
      exact hz ▸ List.getElem_mem hjz
    have hfit := hfits (f, v) hzmem
    have hcell : getCellAt (dataRowOf typ defaultWriteConfig t) j =
        encCell defaultWriteConfig f v := by
      unfold getCellAt dataRowOf
      have hjm : j < ((typ.fields.zip t).map fun p =>
          encCell defaultWriteConfig p.1 p.2).length := by
        simp only [List.length_map, List.length_zip]
        omega
      rw [List.getD_eq_getElem _ _ hjm]
      rw [List.getElem_map, List.getElem_zip, hf', hv']
    have hgetD : typ.fields.getD j noField = f := by
      simp [List.getD, hgetf]
    have hact := cell_roundtrip f (f.tag.getD "") v hexp hfit
    have hproc : ∀ cur, processCell defaultReadConfig paramsDefault f (f.tag.getD "")
        (routineFor f.type) (encCell defaultWriteConfig f v) cur = .ok (v, none) := by
      intro cur
      unfold processCell
      rw [hact]
    have hdf' : typ.fields.drop (j + 1) = fs' := by
      rw [← List.tail_drop, hdf]
      rfl
    have hdt' : t.drop (j + 1) = vs' := by
      rw [← List.tail_drop, hvs]
      rfl
    simp only [List.enumFrom, List.map_cons, processColumns, hgetD, hcell, hproc]
    rw [setFrom]
    exact ih vs' (j + 1) (val.set j v) hdf' hdt'

/-- Decoding the data row `write0` emitted for a well-typed record fills the
zero record back to exactly that record, with no errors. -/
theorem processColumns_roundtrip (typ : StructType) (t : Record) (rowIndex : Nat)
    (errs : List FieldError) (hscm : schemaOk typ) (hrec : recordFits typ t) :
    processColumns typ defaultReadConfig paramsDefault
      (dataRowOf typ defaultWriteConfig t) rowIndex (colsOf typ).enum
      (typ.fields.map fun f => f.type.zeroValue) errs = .cont t errs := by
  have haux := processColumns_roundtrip_aux typ t rowIndex errs
    (fun f hf => (hscm.1 f hf).1) hrec.2 hrec.1 typ.fields
    t 0 (typ.fields.map fun f => f.type.zeroValue) rfl rfl
  have hset : setFrom (typ.fields.map fun f => f.type.zeroValue) 0 t = t := by
    rw [setFrom_eq t 0 _ (by simp [hrec.1])]
    simp
  rw [colsOf_enum]
  rw [hset] at haux
  exact haux

theorem processRows_roundtrip (typ : StructType) (hscm : schemaOk typ) (sheet : Sheet) :
    ∀ (rs : List Record) (j : Nat) (acc : List Record),
    1 ≤ j →
    sheet.rows.drop j = rs.map (dataRowOf typ defaultWriteConfig) →
    (∀ t ∈ rs, recordFits typ t) →
    processRowsList typ defaultReadConfig paramsDefault (colsOf typ) sheet []
      (List.range' j rs.length) acc [] = .done (acc ++ rs) [] := by
  intro rs
  induction rs with
  | nil =>
    intro j acc _ _ _
    simp [processRowsList]
  | cons r rs ih =>
    intro j acc hj halign hfits
    have hrow : sheet.rowAt j = dataRowOf typ defaultWriteConfig r := by
      have h0 : (sheet.rows.drop j)[0]? = some (dataRowOf typ defaultWriteConfig r) := by
        rw [halign]
        simp
      rw [List.getElem?_drop] at h0
      simp only [Nat.add_zero] at h0
      unfold Sheet.rowAt
      simp [List.getD, h0]
    have hstart : defaultReadConfig.dataStartRowIndex.toNat ≤ j := by
      simpa [defaultReadConfig] using hj
    have halign' : sheet.rows.drop (j + 1) =
        rs.map (dataRowOf typ defaultWriteConfig) := by
      rw [← List.tail_drop, halign]
      rfl
    simp only [List.length_cons, List.range'_succ, processRowsList, if_pos hstart, hrow,
      processColumns_roundtrip typ r j [] hscm (hfits r (by simp)), List.all_nil,
      if_pos rfl]
    have := ih (j + 1) (acc ++ [r]) (by omega) halign' fun t ht => hfits t (by simp [ht])
    simp only [if_true]
    rw [this]
    simp

/-- **C1, counterexample.** Encoding a record whose nullable field is nil
and decoding the produced document with matching (default) configuration
does not recover the record: the nil pointer is rendered as the text
`<nil>`, which fails integer conversion, so the whole decode call returns a
field error instead of the sequence. -/
theorem roundtrip_fails_on_nil_pointer :
    readBinary tyPtrInt defaultReadConfig (newFileFromSlice tyPtrInt [recNilPtr] id) [] =
      .error (.fieldErr ⟨1, 0, "a", .parse .kInt "<nil>"⟩) ∧
    Except.error (ReadErr.fieldErr ⟨1, 0, "a", .parse .kInt "<nil>"⟩) ≠
      (.ok [recNilPtr] : Except ReadErr (List Record)) := by
  refine ⟨by decide, by decide⟩

/-- **C1, amended.** For every nonempty record sequence of a type whose
fields are exported, carry pairwise-distinct tags, and have supported types
(primitive kinds, their nullable forms, or date/time), and in which every
nullable field is non-nil, encoding with the write entry points and
decoding the produced document with matching (default) tag and date-pattern
configuration yields a record sequence field-for-field equal to the
original. -/
theorem encode_decode_roundtrip (typ : StructType) (ts : List Record)
    (hscm : schemaOk typ) (hne : ts ≠ []) (hfits : ∀ t ∈ ts, recordFits typ t) :
    readBinary typ defaultReadConfig (newFileFromSlice typ ts id) [] = .ok ts := by
  obtain ⟨hdate, hslen, hname, hrows⟩ := newFileFromSlice_rows typ ts hne
    (fun f hf => ⟨(hscm.1 f hf).1, (hscm.1 f hf).2.1⟩)
  have htslen : 0 < ts.length := List.length_pos.mpr hne
  have hmaxRow : ((newFileFromSlice typ ts id).sheets.getD 0 noSheet).maxRow =
      1 + ts.length := by
    rw [Sheet.maxRow, hrows]
    simp [Nat.add_comm]
  have hdataLen : ∀ r ∈ ts.map (dataRowOf typ defaultWriteConfig),
      r.length = typ.fields.length := by
    intro r hr
    obtain ⟨t, ht, rfl⟩ := List.mem_map.mp hr
    have := (hfits t ht).1
    simp [dataRowOf, List.length_zip, this]
  have hmaxCol : ((newFileFromSlice typ ts id).sheets.getD 0 noSheet).maxCol =
      typ.fields.length :=
    maxCol_const _ (headerRowOf typ) (ts.map (dataRowOf typ defaultWriteConfig))
      typ.fields.length hrows (by simp [headerRowOf]) hdataLen
  have hhdr : ((newFileFromSlice typ ts id).sheets.getD 0 noSheet).rowAt 0 =
      headerRowOf typ := by
    unfold Sheet.rowAt
    rw [hrows]
    rfl
  have hheaders : readStrings ((newFileFromSlice typ ts id).sheets.getD 0 noSheet).maxCol
      (((newFileFromSlice typ ts id).sheets.getD 0 noSheet).rowAt 0) =
      typ.fields.map fun f => f.tag.getD "" := by
    rw [hhdr, hmaxCol]
    rw [show typ.fields.length = (headerRowOf typ).length by simp [headerRowOf]]
    rw [readStrings_full]
    simp only [headerRowOf, List.map_map]
    rfl
  have hbind : bindColumns typ defaultReadConfig
      (readStrings ((newFileFromSlice typ ts id).sheets.getD 0 noSheet).maxCol
        (((newFileFromSlice typ ts id).sheets.getD 0 noSheet).rowAt 0)) =
      .ok (colsOf typ) := by
    rw [hheaders]
    exact bindColumns_schema typ hscm
  have hc1 : ¬((defaultReadConfig.sheetIndex : Int) < 0 ∨
      ((newFileFromSlice typ ts id).sheets.length : Int) - 1 <
        defaultReadConfig.sheetIndex) := by
    rw [hslen]
    simp [defaultReadConfig]
  have hc2 : ¬((defaultReadConfig.headerRowIndex : Int) < 0 ∨
      (((newFileFromSlice typ ts id).sheets.getD 0 noSheet).maxRow : Int) - 1 <
        defaultReadConfig.headerRowIndex) := by
    rw [hmaxRow]
    simp only [defaultReadConfig, not_or, not_lt]
    constructor
    · omega
    · push_cast
      omega
  have hc3 : ¬((defaultReadConfig.dataStartRowIndex : Int) < 0 ∨
      (((newFileFromSlice typ ts id).sheets.getD 0 noSheet).maxRow : Int) - 1 <
        defaultReadConfig.dataStartRowIndex) := by
    rw [hmaxRow]
    simp only [defaultReadConfig, not_or, not_lt]
    constructor
    · omega
    · push_cast
      omega
  have hrowsrun : processRowsList typ defaultReadConfig paramsDefault (colsOf typ)
      ((newFileFromSlice typ ts id).sheets.getD 0 noSheet) []
      (List.range ((newFileFromSlice typ ts id).sheets.getD 0 noSheet).maxRow) [] [] =
      .done ts [] := by
    rw [hmaxRow]
    rw [show (1 + ts.length) = ts.length + 1 from Nat.add_comm 1 ts.length]
    rw [List.range_eq_range', List.range'_succ]
    have hdrop1 : ((newFileFromSlice typ ts id).sheets.getD 0 noSheet).rows.drop 1 =
        ts.map (dataRowOf typ defaultWriteConfig) := by
      rw [hrows]
      rfl
    have hrun := processRows_roundtrip typ hscm
      ((newFileFromSlice typ ts id).sheets.getD 0 noSheet) ts 1 [] (le_refl 1)
      hdrop1 hfits
    simp only [processRowsList, if_neg (by simp [defaultReadConfig] :
      ¬defaultReadConfig.dataStartRowIndex.toNat ≤ 0)]
    rw [show List.range' (0 + 1) ts.length = List.range' 1 ts.length by norm_num]
    rw [hrun]
    simp
  have hidx0 : defaultReadConfig.sheetIndex.toNat = 0 := rfl
  have hidxH : defaultReadConfig.headerRowIndex.toNat = 0 := rfl
  have hparams : (⟨defaultReadConfig.trimSpace, (newFileFromSlice typ ts id).date1904,
      defaultReadConfig.fallbackDateFormats⟩ : ExcelUnmarshalParameters) = paramsDefault := by
    rw [hdate]
    rfl
  simp only [readBinary, hidx0, hidxH, hparams, if_neg hc1, if_neg hc2, if_neg hc3, hbind,
    hrowsrun, List.length_nil, Nat.lt_irrefl, if_false]

/-- Closed instance of `encode_decode_roundtrip`: two copies of a record
exercising every supported field kind and nullable form survive the
encode–decode round trip unchanged. -/
theorem encode_decode_roundtrip_witness :
    readBinary tyAll defaultReadConfig (newFileFromSlice tyAll [recAll, recAll] id) [] =
      .ok [recAll, recAll] :=
  encode_decode_roundtrip tyAll [recAll, recAll] (by decide) (by decide) (by decide)

end Exl
